import Mathlib

/-!
Verification of the CCNA-config-generator frontend against its
natural-language specification.

The TypeScript sources are shallowly embedded: JavaScript strings become
`String`, `Set` insertion becomes order-preserving list insertion,
loosely-typed configuration blobs become the `JVal` JSON-like value type,
and the React event handlers become pure state-transition functions.
-/

/-! ## JavaScript string primitives -/

/-- One step of both-ends whitespace stripping on the character list:
drop leading whitespace, then trailing whitespace. -/
def trimCharList (l : List Char) : List Char :=
  ((l.dropWhile Char.isWhitespace).reverse.dropWhile Char.isWhitespace).reverse

/-- Embedding of JavaScript `String.prototype.trim`. -/
def jsTrim (s : String) : String :=
  ⟨trimCharList s.data⟩

/-- Embedding of JavaScript `String.prototype.startsWith`. -/
def jsStartsWith (s pre : String) : Bool :=
  pre.data.isPrefixOf s.data

theorem dropWhile_dropWhile_self (p : Char → Bool) :
    ∀ l : List Char, (l.dropWhile p).dropWhile p = l.dropWhile p := by
  intro l
  induction l with
  | nil => simp
  | cons c cs ih =>
    by_cases h : p c
    · simpa [List.dropWhile_cons, h] using ih
    · simp [List.dropWhile_cons, h]

theorem dropWhile_append_eq (p : Char → Bool) :
    ∀ l : List Char, ∃ t, l = t ++ l.dropWhile p := by
  intro l
  induction l with
  | nil => exact ⟨[], rfl⟩
  | cons c cs ih =>
    by_cases h : p c
    · obtain ⟨t, ht⟩ := ih
      exact ⟨c :: t, by simp [List.dropWhile_cons, h, ← ht]⟩
    · exact ⟨[], by simp [List.dropWhile_cons, h]⟩

/-- The right-trim (performed through `reverse`) yields a prefix of the input. -/
theorem rtrim_is_prefix_aux (p : Char → Bool) (l : List Char) :
    ∃ t, l = ((l.reverse.dropWhile p).reverse) ++ t := by
  obtain ⟨t, ht⟩ := dropWhile_append_eq p l.reverse
  refine ⟨t.reverse, ?_⟩
  have : l.reverse.reverse = (t ++ l.reverse.dropWhile p).reverse := by rw [← ht]
  simpa [List.reverse_append] using this

theorem dropWhile_eq_self_of_head (p : Char → Bool) (l : List Char)
    (h : ∀ c, l.head? = some c → p c = false) : l.dropWhile p = l := by
  cases l with
  | nil => simp
  | cons c cs => simp [List.dropWhile_cons, h c rfl]

/-- After `dropWhile`, the head (if any) does not satisfy the predicate. -/
theorem head_dropWhile_false (p : Char → Bool) :
    ∀ l : List Char, ∀ c, (l.dropWhile p).head? = some c → p c = false := by
  intro l
  induction l with
  | nil => intro c h; simp at h
  | cons d ds ih =>
    intro c h
    by_cases hd : p d
    · exact ih c (by simpa [List.dropWhile_cons, hd] using h)
    · simp [List.dropWhile_cons, hd] at h
      simpa [← h] using (by simpa using hd : p d = false)

theorem jsTrim_idem (s : String) : jsTrim (jsTrim s) = jsTrim s := by
  unfold jsTrim
  congr 1
  show trimCharList (trimCharList s.data) = trimCharList s.data
  set p := Char.isWhitespace
  set m := (s.data.dropWhile p) with hm
  -- the inner trim result
  have hhead : ∀ c, m.head? = some c → p c = false := head_dropWhile_false p s.data
  -- trimCharList s.data = (m.reverse.dropWhile p).reverse, a prefix of m
  obtain ⟨t, ht⟩ := rtrim_is_prefix_aux p m
  unfold trimCharList
  rw [← hm]
  -- goal about trimming (m.reverse.dropWhile p).reverse again
  set r := (m.reverse.dropWhile p).reverse with hr
  have hrhead : ∀ c, r.head? = some c → p c = false := by
    intro c hc
    cases hrn : r with
    | nil => rw [hrn] at hc; simp at hc
    | cons a as =>
      have : m.head? = some a := by
        rw [ht, hrn]; simp
      have := hhead a this
      rw [hrn] at hc
      simp at hc
      rwa [← hc]
  have h1 : r.dropWhile p = r := dropWhile_eq_self_of_head p r hrhead
  rw [h1]
  rw [hr]
  rw [List.reverse_reverse, dropWhile_dropWhile_self]

/-! ## JSON-like values (the duck-typed configuration blobs) -/

/-- A JavaScript value as passed around in the loosely-typed configuration
objects.  `null` also stands for `undefined`: the source only ever
distinguishes them through `??` and truthiness, which treat them alike. -/
inductive JVal where
  | null
  | str (s : String)
  | num (n : Int)
  | bool (b : Bool)
  | arr (xs : List JVal)
  | obj (fields : List (String × JVal))

/-- JavaScript property access `v.f` (also the optional-chained `v?.f`):
looks a field up on an object, `undefined` (here `null`) otherwise. -/
def JVal.getField (v : JVal) (f : String) : JVal :=
  match v with
  | .obj fields =>
    match fields.find? (fun kv => kv.1 == f) with
    | some kv => kv.2
    | none => .null
  | _ => .null

/-- JavaScript truthiness. -/
def JVal.truthy (v : JVal) : Bool :=
  match v with
  | .null => false
  | .str s => s ≠ ""
  | .num n => n ≠ 0
  | .bool b => b
  | .arr _ => true
  | .obj _ => true

/-- The `??` nullish-coalescing operator. -/
def JVal.orElse (v w : JVal) : JVal :=
  match v with
  | .null => w
  | _ => v

/-- `typeof v === "object"` (true for objects and arrays; `null` is
handled separately by the callers' truthiness guards). -/
def JVal.isObjectType (v : JVal) : Bool :=
  match v with
  | .null => true
  | .arr _ => true
  | .obj _ => true
  | _ => false

/-! ## interfaces.ts -/

/-- Order-preserving insertion, embedding `Set.prototype.add`. -/
def setAdd (used : List String) (x : String) : List String :=
  if x ∈ used then used else used ++ [x]

/-- The `addIface` closure of `getUsedSwitchPorts`: add the trimmed value
when it is a string with non-empty trim. -/
def addIface (used : List String) (v : JVal) : List String :=
  match v with
  | .str s => if jsTrim s ≠ "" then setAdd used (jsTrim s) else used
  | _ => used

/-- One EtherChannel-member step: plain strings are added directly,
anything else contributes its `interface` field. -/
def addMember (used : List String) (m : JVal) : List String :=
  match m with
  | .str _ => addIface used m
  | _ => addIface used (m.getField "interface")

/-- One EtherChannel group: iterate `members` when it is an array, else skip. -/
def addEtherchannel (used : List String) (ec : JVal) : List String :=
  match (ec.getField "members").orElse (.arr []) with
  | .arr ms => ms.foldl addMember used
  | _ => used

/-- `getUsedSwitchPorts` from `src/frontend/lib/utils/interfaces.ts`.
Returns `none` when a JavaScript `for … of` would throw because a resolved
collection is not iterable (the claims only concern array-valued
collections).  A string collection iterates its characters, as in JS. -/
def jsIterate (v : JVal) : Option (List JVal) :=
  match v with
  | .arr xs => some xs
  | .str s => some (s.data.map (fun c => JVal.str ⟨[c]⟩))
  | _ => none

/-- `switching.accessPorts ?? switching.access_ports ?? []`. -/
def resolvedAccessPorts (sw : JVal) : JVal :=
  (sw.getField "accessPorts").orElse ((sw.getField "access_ports").orElse (.arr []))

/-- `switching.trunkPorts ?? switching.trunk_ports ?? []`. -/
def resolvedTrunkPorts (sw : JVal) : JVal :=
  (sw.getField "trunkPorts").orElse ((sw.getField "trunk_ports").orElse (.arr []))

/-- `switching.etherchannels ?? switching.etherChannels ?? switching.ether_channels ?? []`. -/
def resolvedEtherchannels (sw : JVal) : JVal :=
  (sw.getField "etherchannels").orElse
    ((sw.getField "etherChannels").orElse
      ((sw.getField "ether_channels").orElse (.arr [])))

def getUsedSwitchPorts (switching : JVal) : Option (List String) :=
  if ¬ switching.truthy ∨ ¬ switching.isObjectType then some [] else
  match jsIterate (resolvedAccessPorts switching), jsIterate (resolvedTrunkPorts switching),
      jsIterate (resolvedEtherchannels switching) with
  | some aps, some tps, some ecs =>
    let u1 := aps.foldl (fun u p => addIface u (p.getField "interface")) []
    let u2 := tps.foldl (fun u p => addIface u (p.getField "interface")) u1
    some (ecs.foldl addEtherchannel u2)
  | _, _, _ => none

/-- The used-port set as derived in `device-configurator.tsx`
(`usedSwitchPorts = Array.from(getUsedSwitchPorts(config.switching))`). -/
def usedSwitchPortsOf (config : JVal) : Option (List String) :=
  getUsedSwitchPorts (config.getField "switching")

/-! ### Membership characterization of `getUsedSwitchPorts` -/

/-- What a single candidate value contributes through `addIface`: a trimmed
non-empty interface-name string. -/
def ifaceContrib (v : JVal) (x : String) : Prop :=
  ∃ s, v = JVal.str s ∧ jsTrim s ≠ "" ∧ x = jsTrim s

/-- What one EtherChannel member contributes: plain strings directly,
other values through their `interface` field. -/
def memberContrib (m : JVal) (x : String) : Prop :=
  match m with
  | .str _ => ifaceContrib m x
  | _ => ifaceContrib (m.getField "interface") x

/-- What one EtherChannel group contributes: any of its members, when the
resolved `members` collection is an array. -/
def ecContrib (ec : JVal) (x : String) : Prop :=
  ∃ ms, ((ec.getField "members").orElse (.arr [])) = JVal.arr ms ∧ ∃ m ∈ ms, memberContrib m x

/-- Accumulating folds: membership in the result is membership in the seed
or a contribution from some list element. -/
theorem mem_foldl_contrib {β : Type} (step : List String → β → List String)
    (C : β → String → Prop)
    (hstep : ∀ u p x, x ∈ step u p ↔ x ∈ u ∨ C p x) :
    ∀ (l : List β) (u : List String) (x : String),
      x ∈ l.foldl step u ↔ x ∈ u ∨ ∃ p ∈ l, C p x := by
  intro l
  induction l with
  | nil => intro u x; simp
  | cons p ps ih =>
    intro u x
    rw [List.foldl_cons, ih, hstep]
    constructor
    · rintro ((hx | hc) | ⟨q, hq, hcq⟩)
      · exact Or.inl hx
      · exact Or.inr ⟨p, List.mem_cons_self p ps, hc⟩
      · exact Or.inr ⟨q, List.mem_cons_of_mem p hq, hcq⟩
    · rintro (hx | ⟨q, hq, hcq⟩)
      · exact Or.inl (Or.inl hx)
      · rcases List.mem_cons.mp hq with rfl | hq'
        · exact Or.inl (Or.inr hcq)
        · exact Or.inr ⟨q, hq', hcq⟩

theorem mem_setAdd (u : List String) (x y : String) :
    x ∈ setAdd u y ↔ x ∈ u ∨ x = y := by
  unfold setAdd
  by_cases h : y ∈ u
  · simp only [if_pos h]
    constructor
    · exact Or.inl
    · rintro (hx | rfl) <;> assumption
  · simp [if_neg h]

theorem mem_addIface (u : List String) (v : JVal) (x : String) :
    x ∈ addIface u v ↔ x ∈ u ∨ ifaceContrib v x := by
  cases v
  case str s =>
    unfold addIface
    by_cases h : jsTrim s ≠ ""
    · simp only [if_pos h, mem_setAdd]
      unfold ifaceContrib
      constructor
      · rintro (hx | rfl)
        · exact Or.inl hx
        · exact Or.inr ⟨s, rfl, h, rfl⟩
      · rintro (hx | ⟨t, ht, hne, rfl⟩)
        · exact Or.inl hx
        · cases ht; exact Or.inr rfl
    · simp only [if_neg h]
      unfold ifaceContrib
      constructor
      · exact Or.inl
      · rintro (hx | ⟨t, ht, hne, rfl⟩)
        · exact hx
        · cases ht; exact absurd hne h
  all_goals
    simp only [addIface, ifaceContrib]
    constructor
    · exact Or.inl
    · rintro (hx | ⟨t, ht, hne, rfl⟩) <;> first | exact hx | cases ht

theorem mem_addMember (u : List String) (m : JVal) (x : String) :
    x ∈ addMember u m ↔ x ∈ u ∨ memberContrib m x := by
  cases m <;> simp only [addMember, memberContrib] <;> exact mem_addIface _ _ _

theorem mem_addEtherchannel (u : List String) (ec : JVal) (x : String) :
    x ∈ addEtherchannel u ec ↔ x ∈ u ∨ ecContrib ec x := by
  unfold addEtherchannel ecContrib
  cases hv : (ec.getField "members").orElse (.arr [])
  case arr ms =>
    rw [show (match JVal.arr ms with
        | JVal.arr ms => ms.foldl addMember u
        | _ => u) = ms.foldl addMember u from rfl]
    rw [mem_foldl_contrib addMember memberContrib mem_addMember]
    constructor
    · rintro (hx | h)
      · exact Or.inl hx
      · exact Or.inr ⟨ms, rfl, h⟩
    · rintro (hx | ⟨ms', hms', h⟩)
      · exact Or.inl hx
      · cases hms'; exact Or.inr h
  all_goals
    constructor
    · exact Or.inl
    · rintro (hx | ⟨ms', hms', h⟩)
      · exact hx
      · cases hms'

/-- C1: For every switching sub-document whose access-port, trunk-port, and
EtherChannel collections resolve (camelCase or snake_case) to arrays,
`getUsedSwitchPorts` returns exactly the set of trimmed, non-empty
interface-name strings drawn from its access ports, trunk ports, and
EtherChannel members (plain strings or objects with an `interface` field);
any input that is null/undefined or not an object yields the empty set; and
the used-port set computed by the device configurator depends only on the
`switching` sub-document, never on `addressing` or `services`. -/
theorem getUsedSwitchPorts_spec (switching : JVal) (aps tps ecs : List JVal)
    (h1 : resolvedAccessPorts switching = JVal.arr aps)
    (h2 : resolvedTrunkPorts switching = JVal.arr tps)
    (h3 : resolvedEtherchannels switching = JVal.arr ecs) :
    (∀ used, switching.truthy → switching.isObjectType →
      getUsedSwitchPorts switching = some used →
      ∀ x, x ∈ used ↔
        ((∃ p ∈ aps, ifaceContrib (p.getField "interface") x) ∨
         (∃ p ∈ tps, ifaceContrib (p.getField "interface") x) ∨
         (∃ ec ∈ ecs, ecContrib ec x)))
    ∧ (¬ switching.truthy ∨ ¬ switching.isObjectType →
        getUsedSwitchPorts switching = some [])
    ∧ (∀ c₁ c₂ : JVal, c₁.getField "switching" = c₂.getField "switching" →
        usedSwitchPortsOf c₁ = usedSwitchPortsOf c₂) := by
  refine ⟨?_, ?_, ?_⟩
  · intro used htr hobj hget x
    have hcond : ¬ (¬ switching.truthy ∨ ¬ switching.isObjectType) := by
      simp [htr, hobj]
    unfold getUsedSwitchPorts at hget
    rw [if_neg hcond, h1, h2, h3] at hget
    simp only [jsIterate] at hget
    injection hget with hget
    subst hget
    rw [mem_foldl_contrib addEtherchannel ecContrib mem_addEtherchannel,
      mem_foldl_contrib _ (fun p x => ifaceContrib (p.getField "interface") x)
        (fun u p x => mem_addIface u (p.getField "interface") x),
      mem_foldl_contrib _ (fun p x => ifaceContrib (p.getField "interface") x)
        (fun u p x => mem_addIface u (p.getField "interface") x)]
    simp only [List.not_mem_nil, false_or]
    exact or_assoc
  · intro hcond
    unfold getUsedSwitchPorts
    rw [if_pos hcond]
  · intro c₁ c₂ h
    unfold usedSwitchPortsOf
    rw [h]

/-- A concrete switching sub-document exercising every collection shape
accepted by `getUsedSwitchPorts`. -/
def c1SwitchingExample : JVal :=
  JVal.obj [
    ("accessPorts", .arr [.obj [("interface", .str " Gi0/1 ")]]),
    ("trunk_ports", .arr [.obj [("interface", .str "Gi0/2")]]),
    ("etherchannels", .arr [.obj [("members",
      .arr [.str "Gi0/3", .obj [("interface", .str "Gi0/4")]])]])]

theorem getUsedSwitchPorts_spec_witness :
    "Gi0/3" ∈ (["Gi0/1", "Gi0/2", "Gi0/3", "Gi0/4"] : List String) := by
  have h := getUsedSwitchPorts_spec c1SwitchingExample
    [.obj [("interface", .str " Gi0/1 ")]]
    [.obj [("interface", .str "Gi0/2")]]
    [.obj [("members", .arr [.str "Gi0/3", .obj [("interface", .str "Gi0/4")]])]]
    rfl rfl rfl
  refine (h.1 ["Gi0/1", "Gi0/2", "Gi0/3", "Gi0/4"] rfl rfl rfl "Gi0/3").mpr ?_
  refine Or.inr (Or.inr ⟨_, List.mem_cons_self _ _, ?_⟩)
  exact ⟨[.str "Gi0/3", .obj [("interface", .str "Gi0/4")]], rfl,
    .str "Gi0/3", List.mem_cons_self _ _, ⟨"Gi0/3", rfl, by decide, by decide⟩⟩

/-! ## device-configurator.tsx: tab filtering (capability gating in the UI) -/

inductive DeviceType where
  | switch
  | router
  | routerIpsec
  | natDev
  | cloud
deriving DecidableEq, Fintype

inductive SwitchType where
  | l2
  | msw
deriving DecidableEq, Fintype

def TABS : List String :=
  ["addressing", "switching", "routing", "security", "services", "preview"]

/-- `isNatDevice` in `device-configurator.tsx`: `nat` or `cloud`. -/
def isNatDevice (dt : DeviceType) : Bool :=
  dt = .natDev ∨ dt = .cloud

/-- `filteredTabs` from `device-configurator.tsx` (by tab id). -/
def filteredTabs (dt : DeviceType) (switchType : Option SwitchType) : List String :=
  let isSwitch : Bool := dt = .switch
  let isRouter : Bool := dt = .router
  let isMsw : Bool := isSwitch && switchType = some .msw
  TABS.filter (fun tab =>
    if isNatDevice dt then tab ∈ (["addressing", "services", "preview"] : List String)
    else if tab = "switching" && isRouter then false
    else if isSwitch && !isMsw && (tab = "routing" || tab = "services") then false
    else true)

/-- `SecurityTab.isRouter` from the security tab component: the IPsec
Phase-1 / Phase-2 / crypto-map sections render only under this flag. -/
def securityTabIsRouter (dt : DeviceType) : Bool :=
  dt = .router

/-- C2 counterexample: for the `router-ipsec` device type the switching tab
is NOT excluded and the IPsec security sections are NOT available, so the
claim's "router-class (including the router-ipsec variant)" reading fails. -/
theorem filteredTabs_routerIpsec_counterexample :
    "switching" ∈ filteredTabs .routerIpsec none
    ∧ securityTabIsRouter .routerIpsec = false := by decide

/-- C2 (amended): the tab filter excludes the switching tab exactly for the
plain `router` device type, excludes the routing and services tabs for a
switch not flagged as multilayer, and the IPsec Phase-1, Phase-2 and
crypto-map sections are available exactly when the device type is the plain
`router` type (not `router-ipsec`). -/
theorem filteredTabs_gating (st : Option SwitchType) :
    ("switching" ∉ filteredTabs .router st)
    ∧ (st ≠ some .msw →
        "routing" ∉ filteredTabs .switch st ∧ "services" ∉ filteredTabs .switch st)
    ∧ (∀ dt, securityTabIsRouter dt = true ↔ dt = .router) := by
  rcases st with _ | st
  · decide
  · cases st <;> decide

theorem filteredTabs_gating_witness :
    "routing" ∉ filteredTabs .switch none ∧ "services" ∉ filteredTabs .switch none :=
  (filteredTabs_gating none).2.1 (by decide)

/-! ## interfaces.ts: getSelectableInterfaces -/

structure DeviceInterface where
  name : String
  connected : Option Bool
deriving DecidableEq

/-- The filter predicate of `getSelectableInterfaces`, exactly as written:
keep a non-empty name that is selected, or not explicitly disconnected and
not already used. -/
def selectableFilter (used selected : List String) (i : DeviceInterface) : Bool :=
  let selectedSet := selected.filter (fun s => s ≠ "")
  if i.name = "" then false
  else if i.name ∈ selectedSet then true
  else if i.connected = some false then false
  else i.name ∉ used

/-- `getSelectableInterfaces` from `src/frontend/lib/utils/interfaces.ts`:
filter, then sort by interface name (the JS engine's stable comparator sort
is embedded as insertion sort; the claims only concern the resulting order,
namely sortedness by name, and the multiset of entries). -/
def getSelectableInterfaces (interfaces : List DeviceInterface)
    (used selected : List String) : List DeviceInterface :=
  (interfaces.filter (selectableFilter used selected)).insertionSort
    (fun a b => a.name.data ≤ b.name.data)

theorem selectableFilter_iff (used selected : List String) (i : DeviceInterface) :
    selectableFilter used selected i = true ↔
      (i.name ≠ "" ∧
        (i.name ∈ selected ∨ (i.connected ≠ some false ∧ i.name ∉ used))) := by
  unfold selectableFilter
  by_cases h0 : i.name = ""
  · simp [h0]
  · rw [if_neg h0]
    by_cases hsel : i.name ∈ selected.filter (fun s => s ≠ "")
    · have : i.name ∈ selected := (List.mem_filter.mp hsel).1
      simp [hsel, h0, this]
    · have hsel' : i.name ∉ selected := by
        intro hmem
        exact hsel (List.mem_filter.mpr ⟨hmem, by simpa using h0⟩)
      rw [if_neg hsel]
      by_cases hc : i.connected = some false
      · simp [hc, h0, hsel']
      · simp [hc, h0, hsel']

/-- C3: `getSelectableInterfaces` returns exactly the entries with a
non-empty name that are currently selected, or both not explicitly marked
disconnected and absent from the used set; a used interface never appears
unless selected; and the result is sorted by interface name. -/
theorem getSelectableInterfaces_spec (interfaces : List DeviceInterface)
    (used selected : List String) :
    (∀ i, i ∈ getSelectableInterfaces interfaces used selected ↔
      (i ∈ interfaces ∧ i.name ≠ "" ∧
        (i.name ∈ selected ∨ (i.connected ≠ some false ∧ i.name ∉ used))))
    ∧ (getSelectableInterfaces interfaces used selected).Perm
        (interfaces.filter (selectableFilter used selected))
    ∧ (getSelectableInterfaces interfaces used selected).Pairwise
        (fun a b => a.name.data ≤ b.name.data)
    ∧ (∀ i ∈ getSelectableInterfaces interfaces used selected,
        i.name ∈ used → i.name ∈ selected) := by
  haveI : IsTotal DeviceInterface (fun a b => a.name.data ≤ b.name.data) :=
    ⟨fun a b => le_total a.name.data b.name.data⟩
  haveI : IsTrans DeviceInterface (fun a b => a.name.data ≤ b.name.data) :=
    ⟨fun _ _ _ hab hbc => le_trans hab hbc⟩
  have hperm : (getSelectableInterfaces interfaces used selected).Perm
      (interfaces.filter (selectableFilter used selected)) := by
    unfold getSelectableInterfaces
    exact List.perm_insertionSort _ _
  have hmem : ∀ i, i ∈ getSelectableInterfaces interfaces used selected ↔
      (i ∈ interfaces ∧ i.name ≠ "" ∧
        (i.name ∈ selected ∨ (i.connected ≠ some false ∧ i.name ∉ used))) := by
    intro i
    rw [hperm.mem_iff, List.mem_filter, selectableFilter_iff]
  refine ⟨hmem, hperm, ?_, ?_⟩
  · exact List.sorted_insertionSort (fun a b => a.name.data ≤ b.name.data)
      (interfaces.filter (selectableFilter used selected))
  · intro i hi hused
    rcases ((hmem i).mp hi).2.2 with hsel | ⟨_, hnotused⟩
    · exact hsel
    · exact absurd hused hnotused

theorem getSelectableInterfaces_spec_witness :
    getSelectableInterfaces
        [⟨"Gi0/2", some true⟩, ⟨"Gi0/1", some true⟩, ⟨"Gi0/3", some false⟩]
        ["Gi0/1"] ["Gi0/1"]
      = [⟨"Gi0/1", some true⟩, ⟨"Gi0/2", some true⟩]
    ∧ "Gi0/1" ∈ (["Gi0/1"] : List String) := by
  constructor
  · decide
  · exact (getSelectableInterfaces_spec
      [⟨"Gi0/2", some true⟩, ⟨"Gi0/1", some true⟩, ⟨"Gi0/3", some false⟩]
      ["Gi0/1"] ["Gi0/1"]).2.2.2 ⟨"Gi0/1", some true⟩ (by decide) (by decide)


/-! ## device-configurator.tsx: fetchRunningConfig as a state transition -/

/-- The backend response shape read by `fetchRunningConfig`
(`result.ok`, `result.error`, `result.output`). -/
structure ShowRunResult where
  ok : Bool
  error : Option String
  output : Option String
deriving DecidableEq

/-- Truthiness of an optional string field (absent or empty is falsy). -/
def optTruthy (o : Option String) : Bool :=
  match o with
  | some s => s ≠ ""
  | none => false

/-- The two ways the awaited API call can come back: a thrown value (with
`some msg` when it is an `Error` carrying a message) or a returned result. -/
inductive FetchOutcome where
  | thrown (msg : Option String)
  | returned (r : ShowRunResult)

/-- The component state touched by `fetchRunningConfig`. -/
structure ConfiguratorState where
  loadingConfig : Bool
  error : Option String
  runningConfig : String
  showRunningConfig : Bool
deriving DecidableEq

/-- `!result.ok && result.error`: the result carries an error. -/
def resultCarriesError (r : ShowRunResult) : Bool :=
  !r.ok && optTruthy r.error

/-- `fetchRunningConfig` from `device-configurator.tsx`, as the state
transition induced by one outcome of the awaited API call: set loading and
clear the error, dispatch on the outcome (try/catch plus the `ok=false`
check), and finally clear the loading flag. -/
def fetchRunningConfig (o : FetchOutcome) (s : ConfiguratorState) : ConfiguratorState :=
  let s1 := { s with loadingConfig := true, error := none }
  let s2 :=
    match o with
    | .thrown m =>
      { s1 with error := some (m.getD "Failed to fetch running config") }
    | .returned r =>
      if resultCarriesError r then
        { s1 with error := r.error }
      else
        { s1 with
            runningConfig :=
              match r.output with
              | some t => if t ≠ "" then t else "No configuration available"
              | none => "No configuration available",
            showRunningConfig := true }
  { s2 with loadingConfig := false }

/-- C5: the running-configuration fetch never leaves an outcome unhandled:
a thrown value or an `ok=false` result with an error string ends up in the
error field, the loading flag is false on every exit path, and the
running-configuration display is opened only by an outcome that returned
without carrying an error. -/
theorem fetchRunningConfig_spec (o : FetchOutcome) (s : ConfiguratorState) :
    ((fetchRunningConfig o s).loadingConfig = false)
    ∧ (∀ m, o = .thrown m →
        (fetchRunningConfig o s).error = some (m.getD "Failed to fetch running config")
          ∧ (fetchRunningConfig o s).showRunningConfig = s.showRunningConfig)
    ∧ (∀ r, o = .returned r → resultCarriesError r = true →
        (fetchRunningConfig o s).error = r.error
          ∧ (fetchRunningConfig o s).showRunningConfig = s.showRunningConfig)
    ∧ (∀ r, o = .returned r → resultCarriesError r = false →
        (fetchRunningConfig o s).showRunningConfig = true
          ∧ (fetchRunningConfig o s).error = none)
    ∧ (s.showRunningConfig = false → (fetchRunningConfig o s).showRunningConfig = true →
        ∃ r, o = .returned r ∧ resultCarriesError r = false) := by
  refine ⟨?_, ?_, ?_, ?_, ?_⟩
  · cases o with
    | thrown m => rfl
    | returned r =>
      by_cases hc : resultCarriesError r
      · simp [fetchRunningConfig, hc]
      · simp [fetchRunningConfig, hc]
  · intro m hm
    subst hm
    exact ⟨rfl, rfl⟩
  · intro r hr hc
    subst hr
    constructor
    · simp [fetchRunningConfig, hc]
    · simp [fetchRunningConfig, hc]
  · intro r hr hc
    subst hr
    constructor
    · simp [fetchRunningConfig, hc]
    · simp [fetchRunningConfig, hc]
  · intro hs hshow
    cases o with
    | thrown m =>
      rw [show (fetchRunningConfig (.thrown m) s).showRunningConfig
          = s.showRunningConfig from rfl, hs] at hshow
      cases hshow
    | returned r =>
      refine ⟨r, rfl, ?_⟩
      by_cases hc : resultCarriesError r
      · rw [show fetchRunningConfig (.returned r) s
            = { s with loadingConfig := false, error := r.error } from by
              simp [fetchRunningConfig, hc]] at hshow
        rw [hs] at hshow
        cases hshow
      · simpa using hc

theorem fetchRunningConfig_spec_witness :
    (fetchRunningConfig (.returned ⟨false, some "connection refused", none⟩)
        ⟨false, none, "", false⟩).error = some "connection refused"
    ∧ (fetchRunningConfig (.returned ⟨false, some "connection refused", none⟩)
        ⟨false, none, "", false⟩).showRunningConfig = false :=
  (fetchRunningConfig_spec (.returned ⟨false, some "connection refused", none⟩)
    ⟨false, none, "", false⟩).2.2.1 ⟨false, some "connection refused", none⟩ rfl (by decide)

/-! ## preview-tab.tsx: handleApply and the command list -/

/-- Splitting a character list at every occurrence of a separator
character (the structural core of `merged.split('\n')`). -/
def splitOnChar (sep : Char) : List Char → List (List Char)
  | [] => [[]]
  | c :: cs =>
    let rest := splitOnChar sep cs
    if c = sep then [] :: rest
    else
      match rest with
      | r :: rs => (c :: r) :: rs
      | [] => [[c]]

/-- Embedding of JavaScript `merged.split('\n')`. -/
def jsSplitNewline (s : String) : List String :=
  (splitOnChar (Char.ofNat 10) s.data).map (fun l => ⟨l⟩)

/-- The apply response shape used by the preview tab (`ok`, `errors`,
`log`; the catch branch builds an object with no `log` field). -/
structure ApplyRes where
  ok : Bool
  errors : List String
  log : Option (List String)
deriving DecidableEq

inductive ApplyOutcome where
  | thrown (msg : Option String)
  | returned (r : ApplyRes)

/-- The request body of `ApiClient.applyConfig(deviceId, commands, saveConfig)`. -/
structure ApplyRequest where
  deviceId : String
  commands : List String
  saveConfig : Bool
deriving DecidableEq

structure PreviewState where
  isApplying : Bool
  applyResult : Option ApplyRes
deriving DecidableEq

/-- The command list sent by `handleApply`:
`merged.split('\n').filter(line => line.trim() && !line.startsWith('!'))`. -/
def configCommands (merged : String) : List String :=
  (jsSplitNewline merged).filter
    (fun line => decide (jsTrim line ≠ "") && !(jsStartsWith line "!"))

/-- `handleApply` from `preview-tab.tsx`: guard on a truthy merged text,
build the command list, issue the apply request (returned alongside the
final state), and record thrown errors as a structured failed result. -/
def handleApply (deviceId : String) (generatedMerged : Option String)
    (outcome : ApplyOutcome) (s : PreviewState) : PreviewState × Option ApplyRequest :=
  match generatedMerged with
  | some m =>
    if m ≠ "" then
      let s1 := { s with isApplying := true, applyResult := none }
      let req : ApplyRequest := ⟨deviceId, configCommands m, true⟩
      let s2 :=
        match outcome with
        | .returned r => { s1 with applyResult := some r }
        | .thrown msg =>
          { s1 with applyResult := some (ApplyRes.mk false [msg.getD "Failed to apply config"] none) }
      ({ s2 with isApplying := false }, some req)
    else (s, none)
  | none => (s, none)

/-- C6: applying never leaves a thrown error unhandled: when the apply
request throws, the recorded result is `ok = false` with the thrown message
as the single errors entry; the applying flag is false on every exit path
(from a non-applying state); and a request is issued only when a non-empty
merged configuration text exists. -/
theorem handleApply_spec (deviceId : String) (merged : Option String)
    (outcome : ApplyOutcome) (s : PreviewState) (hs : s.isApplying = false) :
    ((handleApply deviceId merged outcome s).1.isApplying = false)
    ∧ (∀ msg req, outcome = .thrown msg →
        (handleApply deviceId merged outcome s).2 = some req →
        (handleApply deviceId merged outcome s).1.applyResult
          = some (ApplyRes.mk false [msg.getD "Failed to apply config"] none))
    ∧ ((handleApply deviceId merged outcome s).2.isSome = true →
        ∃ m, merged = some m ∧ m ≠ "") := by
  refine ⟨?_, ?_, ?_⟩
  · cases merged with
    | none => exact hs
    | some m =>
      by_cases hm : m = ""
      · simp [handleApply, hm, hs]
      · cases outcome <;> simp [handleApply, hm]
  · intro msg req houtcome hreq
    subst houtcome
    cases merged with
    | none => cases hreq
    | some m =>
      by_cases hm : m = ""
      · rw [handleApply] at hreq
        rw [if_neg (by simpa using hm)] at hreq
        cases hreq
      · simp [handleApply, hm]
  · intro hreq
    cases merged with
    | none => cases hreq
    | some m =>
      by_cases hm : m = ""
      · rw [handleApply] at hreq
        rw [if_neg (by simpa using hm)] at hreq
        cases hreq
      · exact ⟨m, rfl, hm⟩

theorem handleApply_spec_witness :
    (handleApply "node-1" (some "hostname R1") (.thrown (some "timeout"))
        ⟨false, none⟩).1.applyResult = some (ApplyRes.mk false ["timeout"] none) :=
  (handleApply_spec "node-1" (some "hostname R1") (.thrown (some "timeout"))
    ⟨false, none⟩ rfl).2.1 (some "timeout")
    ⟨"node-1", configCommands "hostname R1", true⟩ rfl rfl

theorem jsStartsWith_bang (line : String) :
    jsStartsWith line "!" = decide (line.data.head? = some '!') := by
  unfold jsStartsWith
  rw [show ("!" : String).data = ['!'] from rfl]
  cases line.data with
  | nil => rfl
  | cons c t =>
    show ('!' == c && List.isPrefixOf [] t) = decide (some c = some '!')
    rw [show List.isPrefixOf ([] : List Char) t = true from by cases t <;> rfl, Bool.and_true,
      Bool.eq_iff_iff]
    simp only [beq_iff_eq, decide_eq_true_eq, Option.some.injEq]
    exact ⟨Eq.symm, Eq.symm⟩

/-- C8: the command list passed to the device-apply request is exactly the
lines of the merged text whose trim is non-empty and whose first character
is not `'!'` (so an indented comment line is retained), in their original
relative order, and the request always sets `saveConfig` to true. -/
theorem applyRequest_commands_spec (deviceId m : String) (hm : m ≠ "")
    (outcome : ApplyOutcome) (s : PreviewState) :
    (handleApply deviceId (some m) outcome s).2
      = some ⟨deviceId,
          (jsSplitNewline m).filter
            (fun line => decide (jsTrim line ≠ "") && decide (line.data.head? ≠ some '!')),
          true⟩
    ∧ (configCommands m).Sublist (jsSplitNewline m) := by
  have hfilter : configCommands m
      = (jsSplitNewline m).filter
          (fun line => decide (jsTrim line ≠ "") && decide (line.data.head? ≠ some '!')) := by
    unfold configCommands
    refine List.filter_congr ?_
    intro line _
    rw [jsStartsWith_bang]
    by_cases h : line.data.head? = some '!' <;> simp [h]
  constructor
  · rw [show (handleApply deviceId (some m) outcome s).2 = some ⟨deviceId, configCommands m, true⟩ from by
      cases outcome <;> simp [handleApply, hm]]
    rw [hfilter]
  · exact List.filter_sublist _

theorem applyRequest_commands_spec_witness :
    (handleApply "R1" (some "hostname R1\n  ! keep\n! drop\n")
        (.returned ⟨true, [], none⟩) ⟨false, none⟩).2
      = some ⟨"R1", ["hostname R1", "  ! keep"], true⟩ := by
  have h := applyRequest_commands_spec "R1" "hostname R1\n  ! keep\n! drop\n"
    (by decide) (.returned ⟨true, [], none⟩) ⟨false, none⟩
  rw [h.1]
  decide

/-! ## Decimal rendering of naturals (the template literal number piece) -/

/-- ASCII digit character for a value below ten. -/
def digitChar (d : Nat) : Char :=
  Char.ofNat (48 + d)

/-- Little-endian decimal digits with explicit fuel (the fuel `n` always
suffices because `n / 10 < n` for positive `n`). -/
def decDigitsAux : Nat → Nat → List Nat
  | 0, _ => []
  | _ + 1, 0 => []
  | fuel + 1, n + 1 => ((n + 1) % 10) :: decDigitsAux fuel ((n + 1) / 10)

def decDigits (n : Nat) : List Nat :=
  decDigitsAux n n

theorem decDigitsAux_eq_digits :
    ∀ fuel n, n ≤ fuel → decDigitsAux fuel n = Nat.digits 10 n := by
  intro fuel
  induction fuel with
  | zero =>
    intro n hn
    have hn0 : n = 0 := Nat.le_zero.mp hn
    subst hn0
    simp [decDigitsAux]
  | succ fuel ih =>
    intro n hn
    cases n with
    | zero => simp [decDigitsAux]
    | succ k =>
      rw [decDigitsAux]
      rw [Nat.digits_def' (by norm_num : 1 < 10) (Nat.succ_pos k)]
      congr 1
      exact ih _ (by
        have : (k + 1) / 10 < k + 1 := Nat.div_lt_self (Nat.succ_pos k) (by norm_num)
        omega)

theorem decDigits_eq_digits (n : Nat) : decDigits n = Nat.digits 10 n :=
  decDigitsAux_eq_digits n n le_rfl

/-- Embedding of JavaScript number-to-string for a natural (as produced by
a template literal): most-significant-first decimal digits. -/
def decStr (n : Nat) : String :=
  if n = 0 then "0" else ⟨(decDigits n).reverse.map digitChar⟩

theorem digitChar_inj_below :
    ∀ a, a < 10 → ∀ b, b < 10 → digitChar a = digitChar b → a = b := by decide

theorem map_digitChar_inj :
    ∀ l₁ l₂ : List Nat, (∀ d ∈ l₁, d < 10) → (∀ d ∈ l₂, d < 10) →
      l₁.map digitChar = l₂.map digitChar → l₁ = l₂ := by
  intro l₁
  induction l₁ with
  | nil =>
    intro l₂ _ _ h
    cases l₂ with
    | nil => rfl
    | cons b bs => cases h
  | cons a as ih =>
    intro l₂ h₁ h₂ h
    cases l₂ with
    | nil => cases h
    | cons b bs =>
      simp only [List.map_cons, List.cons.injEq] at h
      have ha : a = b := digitChar_inj_below a (h₁ a (List.mem_cons_self a as)) b
        (h₂ b (List.mem_cons_self b bs)) h.1
      have := ih bs (fun d hd => h₁ d (List.mem_cons_of_mem a hd))
        (fun d hd => h₂ d (List.mem_cons_of_mem b hd)) h.2
      rw [ha, this]

theorem strExt {s t : String} (h : s.data = t.data) : s = t := by
  cases s
  cases t
  cases h
  rfl

theorem decStr_digits_chars (n : Nat) (hn : n ≠ 0) :
    (decStr n).data = ((Nat.digits 10 n).reverse.map digitChar) := by
  unfold decStr
  rw [if_neg hn, decDigits_eq_digits]

theorem decStr_inj : ∀ m n : Nat, decStr m = decStr n → m = n := by
  have digitsBound : ∀ k : Nat, ∀ d ∈ (Nat.digits 10 k).reverse, d < 10 := by
    intro k d hd
    exact Nat.digits_lt_base (by norm_num) (List.mem_reverse.mp hd)
  have nonzero_ne : ∀ k : Nat, k ≠ 0 → decStr k ≠ "0" := by
    intro k hk h
    have hdata : ((Nat.digits 10 k).reverse.map digitChar) = ['0'] := by
      rw [← decStr_digits_chars k hk, h]
    have : (Nat.digits 10 k).reverse = [0] := by
      have h0 : ([0] : List Nat).map digitChar = ['0'] := rfl
      exact map_digitChar_inj _ _ (digitsBound k) (by intro d hd; simp at hd; omega)
        (by rw [hdata, h0])
    have hdig : Nat.digits 10 k = [0] := by
      have := congrArg List.reverse this
      simpa using this
    have hk0 : k = 0 := by
      have h1 := Nat.ofDigits_digits 10 k
      rw [hdig] at h1
      simpa [Nat.ofDigits] using h1.symm
    exact hk hk0
  intro m n h
  by_cases hm : m = 0
  · by_cases hn : n = 0
    · rw [hm, hn]
    · subst hm
      exact absurd h.symm (nonzero_ne n hn)
  · by_cases hn : n = 0
    · subst hn
      exact absurd h (nonzero_ne m hm)
    · have hd : ((Nat.digits 10 m).reverse.map digitChar)
          = ((Nat.digits 10 n).reverse.map digitChar) := by
        rw [← decStr_digits_chars m hm, ← decStr_digits_chars n hn, h]
      have : (Nat.digits 10 m).reverse = (Nat.digits 10 n).reverse :=
        map_digitChar_inj _ _ (digitsBound m) (digitsBound n) hd
      have : Nat.digits 10 m = Nat.digits 10 n := by
        have := congrArg List.reverse this
        simpa using this
      exact Nat.digits_inj_iff.mp this

/-! ## ASCII lowercasing (the `toLowerCase` calls on interface names) -/

/-- ASCII lowercasing of one character, embedding the effect of
`String.prototype.toLowerCase` on the ASCII range used by interface names. -/
def asciiLower (c : Char) : Char :=
  if 65 ≤ c.toNat ∧ c.toNat ≤ 90 then Char.ofNat (c.toNat + 32) else c

/-- Embedding of `String.prototype.toLowerCase`. -/
def lowerStr (s : String) : String :=
  ⟨s.data.map asciiLower⟩

theorem strData_append (s t : String) : (s ++ t).data = s.data ++ t.data := by
  cases s
  cases t
  rfl

theorem strAppend_left_cancel {p s t : String} (h : p ++ s = p ++ t) : s = t := by
  have hd := congrArg String.data h
  rw [strData_append, strData_append] at hd
  exact strExt (List.append_cancel_left hd)

theorem map_eq_self_of_mem {α : Type} (f : α → α) :
    ∀ l : List α, (∀ a ∈ l, f a = a) → l.map f = l := by
  intro l
  induction l with
  | nil => intro _; rfl
  | cons a as ih =>
    intro h
    rw [List.map_cons, h a (List.mem_cons_self a as),
      ih (fun b hb => h b (List.mem_cons_of_mem a hb))]

theorem asciiLower_digitChar : ∀ d, d < 10 → asciiLower (digitChar d) = digitChar d := by
  decide

theorem lowerStr_append (s t : String) :
    lowerStr (s ++ t) = lowerStr s ++ lowerStr t := by
  apply strExt
  rw [strData_append]
  show (s.data ++ t.data).map asciiLower = (lowerStr s).data ++ (lowerStr t).data
  rw [List.map_append]
  rfl

theorem lowerStr_decStr (n : Nat) : lowerStr (decStr n) = decStr n := by
  apply strExt
  show (decStr n).data.map asciiLower = (decStr n).data
  apply map_eq_self_of_mem
  intro c hc
  by_cases hn : n = 0
  · subst hn
    simp only [decStr, if_pos rfl] at hc
    have : c = '0' := by simpa using hc
    rw [this]
    rfl
  · rw [decStr_digits_chars n hn] at hc
    obtain ⟨d, hd, rfl⟩ := List.mem_map.mp hc
    exact asciiLower_digitChar d
      (Nat.digits_lt_base (by norm_num) (List.mem_reverse.mp hd))

/-! ## addressing-tab.tsx: addLoopback -/

/-- A routed-interface entry of the Addressing sub-document
(`RoutedInterface` in `addressing-tab.tsx`). -/
structure RoutedInterface where
  interface : String
  ipAddress : String
  subnetMask : String
  description : Option String
  shutdown : Bool
  vrf : Option String
  cryptoMap : Option String
  mplsIp : Option Bool
  duplex : Option String
  speed : Option String
deriving DecidableEq

/-- The Addressing sub-document as far as `addLoopback` touches it: the
routed-interface list (`addLoopback` spreads every other sub-collection of
the document through unchanged). -/
structure AddressingConfig where
  interfaces : List RoutedInterface
deriving DecidableEq

/-- The template string `` `loopback${n}` `` compared against lowercased
names. -/
def lpName (n : Nat) : String :=
  "loopback" ++ decStr n

/-- One probe of the `while` loop of `addLoopback`: is some configured
interface (filtered to loopback-prefixed names, as in the source) named
`loopback<n>` case-insensitively? -/
def loopbackTaken (cfg : AddressingConfig) (n : Nat) : Bool :=
  ((cfg.interfaces.map (fun i => i.interface)).filter
      (fun s => jsStartsWith (lowerStr s) "loopback")).any
    (fun s => lowerStr s == lpName n)

/-- Bounded search for the first index not taken, mirroring the source's
`while (taken(nextId)) nextId++` (the fuel `interfaces.length + 1` provably
suffices: at most `length` indices can be taken). -/
def findFreeFrom (taken : Nat → Bool) : Nat → Nat → Nat
  | 0, k => k
  | fuel + 1, k => if taken k then findFreeFrom taken fuel (k + 1) else k

def nextFreeLoopback (cfg : AddressingConfig) : Nat :=
  findFreeFrom (loopbackTaken cfg) (cfg.interfaces.length + 1) 0

/-- `addLoopback` from `addressing-tab.tsx`: append one new loopback entry
with the first free number, a /32 mask, and shutdown off. -/
def addLoopback (cfg : AddressingConfig) : AddressingConfig :=
  let nextId := nextFreeLoopback cfg
  { cfg with
      interfaces := cfg.interfaces ++
        [{ interface := "Loopback" ++ decStr nextId
           ipAddress := ""
           subnetMask := "255.255.255.255"
           description := some "Loopback Interface"
           shutdown := false
           vrf := some ""
           cryptoMap := none
           mplsIp := some false
           duplex := none
           speed := none }] }


theorem findFreeFrom_spec (taken : Nat → Bool) :
    ∀ fuel k, (∃ n, k ≤ n ∧ n < k + fuel ∧ taken n = false) →
      taken (findFreeFrom taken fuel k) = false
      ∧ k ≤ findFreeFrom taken fuel k
      ∧ ∀ m, k ≤ m → m < findFreeFrom taken fuel k → taken m = true := by
  intro fuel
  induction fuel with
  | zero =>
    intro k h
    obtain ⟨n, hkn, hn, _⟩ := h
    omega
  | succ fuel ih =>
    intro k h
    obtain ⟨n, hkn, hn, hfree⟩ := h
    by_cases hk : taken k = true
    · have hne : n ≠ k := by
        intro h
        rw [h, hk] at hfree
        cases hfree
      have hstep := ih (k + 1) ⟨n, by omega, by omega, hfree⟩
      rw [show findFreeFrom taken (fuel + 1) k = findFreeFrom taken fuel (k + 1) from by
        rw [findFreeFrom, if_pos hk]]
      refine ⟨hstep.1, by omega, ?_⟩
      intro m hkm hm
      by_cases hmk : m = k
      · rw [hmk]
        exact hk
      · exact hstep.2.2 m (by omega) hm
    · have hk' : taken k = false := by
        cases h : taken k
        · rfl
        · exact absurd h hk
      rw [show findFreeFrom taken (fuel + 1) k = k from by
        rw [findFreeFrom, if_neg hk]]
      exact ⟨hk', le_refl k, fun m hkm hm => by omega⟩

theorem lpName_inj {a b : Nat} (h : lpName a = lpName b) : a = b :=
  decStr_inj a b (strAppend_left_cancel h)

/-- `loopbackTaken` holds exactly when some configured interface is named
`loopback<n>` case-insensitively (the source's filter to loopback-prefixed
names does not change this, because equality with the template already
forces the lowercase name to start with "loopback"). -/
theorem loopbackTaken_iff (cfg : AddressingConfig) (n : Nat) :
    loopbackTaken cfg n = true ↔
      ∃ i ∈ cfg.interfaces, lowerStr i.interface = lpName n := by
  unfold loopbackTaken
  rw [List.any_eq_true]
  constructor
  · rintro ⟨s, hs, heq⟩
    have hseq : lowerStr s = lpName n := by simpa using heq
    have hsmem : s ∈ cfg.interfaces.map (fun i => i.interface) :=
      (List.mem_filter.mp hs).1
    obtain ⟨i, hi, rfl⟩ := List.mem_map.mp hsmem
    exact ⟨i, hi, hseq⟩
  · rintro ⟨i, hi, heq⟩
    refine ⟨i.interface, ?_, by simpa using heq⟩
    refine List.mem_filter.mpr ⟨List.mem_map.mpr ⟨i, hi, rfl⟩, ?_⟩
    rw [heq]
    unfold jsStartsWith lpName
    rw [strData_append]
    exact List.isPrefixOf_iff_prefix.mpr (List.prefix_append _ _)

/-- At most `length` indices can be taken, so some `n ≤ length` is free. -/
theorem exists_free_loopback (cfg : AddressingConfig) :
    ∃ n, n < cfg.interfaces.length + 1 ∧ loopbackTaken cfg n = false := by
  by_contra hcon
  push_neg at hcon
  have htaken : ∀ n < cfg.interfaces.length + 1, loopbackTaken cfg n = true := by
    intro n hn
    cases h : loopbackTaken cfg n
    · exact absurd h (hcon n hn)
    · rfl
  set L := cfg.interfaces.map (fun i => lowerStr i.interface) with hL
  have hmem : ∀ n ∈ Finset.range (cfg.interfaces.length + 1), lpName n ∈ L.toFinset := by
    intro n hn
    obtain ⟨i, hi, heq⟩ := (loopbackTaken_iff cfg n).mp
      (htaken n (Finset.mem_range.mp hn))
    exact List.mem_toFinset.mpr (heq ▸ List.mem_map.mpr ⟨i, hi, rfl⟩)
  have hsub : (Finset.range (cfg.interfaces.length + 1)).image lpName ⊆ L.toFinset := by
    intro x hx
    obtain ⟨n, hn, rfl⟩ := Finset.mem_image.mp hx
    exact hmem n hn
  have hcard1 : ((Finset.range (cfg.interfaces.length + 1)).image lpName).card
      = cfg.interfaces.length + 1 := by
    rw [Finset.card_image_of_injective _ (fun a b => lpName_inj), Finset.card_range]
  have hcard2 : L.toFinset.card ≤ cfg.interfaces.length := by
    have := L.toFinset_card_le
    simpa [hL] using this
  have := Finset.card_le_card hsub
  omega

theorem lowerStr_loopback_name (n : Nat) :
    lowerStr ("Loopback" ++ decStr n) = lpName n := by
  rw [lowerStr_append, lowerStr_decStr]
  rw [show lowerStr "Loopback" = "loopback" from by decide]
  rfl

/-- C9: `addLoopback` appends exactly one routed-interface entry named
`Loopback<n>`, where `n` is the smallest natural number such that no
already-configured interface has the case-insensitive name `loopback<n>`;
the new entry has mask 255.255.255.255 and shutdown off, and its name is
case-insensitively distinct from every previously configured name. -/
theorem addLoopback_spec (cfg : AddressingConfig) :
    ((addLoopback cfg).interfaces
        = cfg.interfaces ++
          [{ interface := "Loopback" ++ decStr (nextFreeLoopback cfg)
             ipAddress := ""
             subnetMask := "255.255.255.255"
             description := some "Loopback Interface"
             shutdown := false
             vrf := some ""
             cryptoMap := none
             mplsIp := some false
             duplex := none
             speed := none }])
    ∧ (∀ i ∈ cfg.interfaces, lowerStr i.interface ≠ lpName (nextFreeLoopback cfg))
    ∧ (∀ m < nextFreeLoopback cfg, ∃ i ∈ cfg.interfaces, lowerStr i.interface = lpName m)
    ∧ lowerStr ("Loopback" ++ decStr (nextFreeLoopback cfg)) = lpName (nextFreeLoopback cfg)
    ∧ (∀ i ∈ cfg.interfaces,
        lowerStr i.interface ≠ lowerStr ("Loopback" ++ decStr (nextFreeLoopback cfg))) := by
  have hex : ∃ n, 0 ≤ n ∧ n < 0 + (cfg.interfaces.length + 1)
      ∧ loopbackTaken cfg n = false := by
    obtain ⟨n, hn, hfree⟩ := exists_free_loopback cfg
    exact ⟨n, Nat.zero_le n, by omega, hfree⟩
  have hspec := findFreeFrom_spec (loopbackTaken cfg) (cfg.interfaces.length + 1) 0 hex
  have hfree : loopbackTaken cfg (nextFreeLoopback cfg) = false := hspec.1
  have hmin : ∀ m, m < nextFreeLoopback cfg → loopbackTaken cfg m = true :=
    fun m hm => hspec.2.2 m (Nat.zero_le m) hm
  have hnot : ∀ i ∈ cfg.interfaces, lowerStr i.interface ≠ lpName (nextFreeLoopback cfg) := by
    intro i hi heq
    have := (loopbackTaken_iff cfg (nextFreeLoopback cfg)).mpr ⟨i, hi, heq⟩
    rw [hfree] at this
    cases this
  refine ⟨rfl, hnot, ?_, lowerStr_loopback_name _, ?_⟩
  · intro m hm
    exact (loopbackTaken_iff cfg m).mp (hmin m hm)
  · intro i hi
    rw [lowerStr_loopback_name]
    exact hnot i hi

/-- A concrete addressing document already holding `Loopback0`. -/
def c9ExampleEntry : RoutedInterface :=
  { interface := "Loopback0"
    ipAddress := ""
    subnetMask := "255.255.255.255"
    description := some "Loopback Interface"
    shutdown := false
    vrf := some ""
    cryptoMap := none
    mplsIp := some false
    duplex := none
    speed := none }

def c9ExampleConfig : AddressingConfig :=
  ⟨[c9ExampleEntry]⟩

theorem addLoopback_spec_witness :
    lowerStr c9ExampleEntry.interface ≠ lpName (nextFreeLoopback c9ExampleConfig) :=
  (addLoopback_spec c9ExampleConfig).2.1 c9ExampleEntry (by decide)

/-! ## The backend compile engine, modelled from the specification

The per-module compilers, the capability/conflict gate and the assembler
live in the backend service, whose sources are not part of this frontend
tree; the definitions below follow the specification's description of them
(sections 4.1–4.3 and 6 of the design document). -/

/-- Modelled from the spec: one access-port entry of the Switching
sub-document. -/
structure SwAccessPort where
  interface : String
  vlan : Nat
deriving DecidableEq

/-- Modelled from the spec: one trunk-port entry. -/
structure SwTrunkPort where
  interface : String
deriving DecidableEq

/-- Modelled from the spec: one EtherChannel group with member interfaces. -/
structure SwEtherchannel where
  id : Nat
  members : List String
deriving DecidableEq

/-- Modelled from the spec: the Switching sub-document. -/
structure SwitchingDoc where
  vlans : List (Nat × String)
  accessPorts : List SwAccessPort
  trunkPorts : List SwTrunkPort
  etherchannels : List SwEtherchannel
deriving DecidableEq

/-- Modelled from the spec: one routed-interface entry of Addressing. -/
structure RoutedEntry where
  interface : String
  ipAddress : String
  subnetMask : String
deriving DecidableEq

/-- Modelled from the spec: one SVI entry of Addressing. -/
structure SviEntry where
  vlanId : Nat
  ipAddress : String
  subnetMask : String
deriving DecidableEq

/-- Modelled from the spec: the Addressing sub-document. -/
structure AddressingDoc where
  interfaces : List RoutedEntry
  vlanInterfaces : List SviEntry
deriving DecidableEq

/-- Modelled from the spec: one HSRP group binding. -/
structure HsrpEntry where
  interface : String
  group : Nat
  virtualIp : String
deriving DecidableEq

/-- Modelled from the spec: the NAT block of Services. -/
structure NatDoc where
  insideInterfaces : List String
  outsideInterfaces : List String
deriving DecidableEq

/-- Modelled from the spec: the Services sub-document. -/
structure ServicesDoc where
  hsrp : List HsrpEntry
  nat : Option NatDoc
deriving DecidableEq

/-- Modelled from the spec: the Routing sub-document (static routes as
network/mask/next-hop triples). -/
structure RoutingDoc where
  staticRoutes : List (String × String × String)
deriving DecidableEq

/-- Modelled from the spec: the intended-configuration document. -/
structure SpecDocument where
  hostname : String
  deviceType : DeviceType
  switchType : Option SwitchType
  addressing : Option AddressingDoc
  switching : Option SwitchingDoc
  routing : Option RoutingDoc
  services : Option ServicesDoc
deriving DecidableEq

/-- Modelled from the spec: the interface names holding an L2 role
(access, trunk, EtherChannel member). -/
def l2Names (doc : SpecDocument) : List String :=
  match doc.switching with
  | none => []
  | some sw =>
    sw.accessPorts.map (fun p => p.interface)
      ++ sw.trunkPorts.map (fun p => p.interface)
      ++ (sw.etherchannels.map (fun ec => ec.members)).flatten

/-- Modelled from the spec: the interface names holding an L3 role
(routed interface, SVI, HSRP-bound, NAT inside/outside). -/
def l3Names (doc : SpecDocument) : List String :=
  (match doc.addressing with
   | none => []
   | some ad =>
     ad.interfaces.map (fun e => e.interface)
       ++ ad.vlanInterfaces.map (fun v => "Vlan" ++ decStr v.vlanId))
  ++ (match doc.services with
      | none => []
      | some sv =>
        sv.hsrp.map (fun h => h.interface)
          ++ (match sv.nat with
              | none => []
              | some n => n.insideInterfaces ++ n.outsideInterfaces))

/-- Modelled from the spec: the conflict warning text for one interface. -/
def conflictWarning (iface : String) : String :=
  iface ++ ": claimed by both switching and addressing/services"

/-- Modelled from the spec: the gate's warning list — one warning per
interface claimed by both layers. -/
def gateWarnings (doc : SpecDocument) : List String :=
  (((l2Names doc).filter (fun i => i ∈ l3Names doc)).dedup).map conflictWarning

/-- Modelled from the spec: the base/access module (hostname line). -/
def compileBase (doc : SpecDocument) : List String :=
  ["hostname " ++ doc.hostname]

/-- Modelled from the spec: the Addressing compiler — one interface stanza
per routed entry and per SVI. -/
def compileAddressing (ad : AddressingDoc) : List String :=
  (ad.interfaces.map (fun e =>
      ["interface " ++ e.interface,
       " ip address " ++ e.ipAddress ++ " " ++ e.subnetMask,
       " no shutdown"])).flatten
  ++ (ad.vlanInterfaces.map (fun v =>
      ["interface Vlan" ++ decStr v.vlanId,
       " ip address " ++ v.ipAddress ++ " " ++ v.subnetMask,
       " no shutdown"])).flatten

/-- Modelled from the spec: the Switching compiler — VLAN database entries,
then access ports, then trunk ports, then EtherChannel groups. -/
def compileSwitching (sw : SwitchingDoc) : List String :=
  (sw.vlans.map (fun v => ["vlan " ++ decStr v.1, " name " ++ v.2])).flatten
  ++ (sw.accessPorts.map (fun p =>
      ["interface " ++ p.interface,
       " switchport mode access",
       " switchport access vlan " ++ decStr p.vlan])).flatten
  ++ (sw.trunkPorts.map (fun p =>
      ["interface " ++ p.interface, " switchport mode trunk"])).flatten
  ++ (sw.etherchannels.map (fun ec =>
      (ec.members.map (fun m =>
        "interface " ++ m ++ " channel-group " ++ decStr ec.id)))).flatten

/-- Modelled from the spec: the Routing compiler (static routes). -/
def compileRouting (r : RoutingDoc) : List String :=
  r.staticRoutes.map (fun t => "ip route " ++ t.1 ++ " " ++ t.2.1 ++ " " ++ t.2.2)

/-- Modelled from the spec: the Services compiler — HSRP groups, then NAT
inside/outside declarations. -/
def compileServices (sv : ServicesDoc) : List String :=
  (sv.hsrp.map (fun h =>
      ["interface " ++ h.interface,
       " standby " ++ decStr h.group ++ " ip " ++ h.virtualIp])).flatten
  ++ (match sv.nat with
      | none => []
      | some n =>
        (n.insideInterfaces.map (fun i =>
            ["interface " ++ i, " ip nat inside"])).flatten
          ++ (n.outsideInterfaces.map (fun i =>
              ["interface " ++ i, " ip nat outside"])).flatten)

/-- Modelled from the spec: Switching is applicable only to switch-class
devices. -/
def switchingApplicable (doc : SpecDocument) : Bool :=
  doc.deviceType = .switch

/-- Modelled from the spec: Routing and Services are applicable to
router-class devices and to switches flagged as multilayer. -/
def routingApplicable (doc : SpecDocument) : Bool :=
  doc.deviceType ≠ .switch || doc.switchType = some .msw

/-- Modelled from the spec: the per-module compiled lines in the canonical
Base → Addressing → Switching → Routing → Services order, with inapplicable
modules suppressed by the gate. -/
def moduleList (doc : SpecDocument) : List (String × List String) :=
  [("base", compileBase doc),
   ("addressing",
    match doc.addressing with
    | some a => compileAddressing a
    | none => []),
   ("switching",
    if switchingApplicable doc then
      match doc.switching with
      | some sw => compileSwitching sw
      | none => []
    else []),
   ("routing",
    if routingApplicable doc then
      match doc.routing with
      | some r => compileRouting r
      | none => []
    else []),
   ("services",
    if routingApplicable doc then
      match doc.services with
      | some sv => compileServices sv
      | none => []
    else [])]

/-- Newline joining of compiled lines. -/
def joinLines : List String → String
  | [] => ""
  | [l] => l
  | l :: ls => l ++ "\n" ++ joinLines ls

/-- The compile result shape of `POST /config/generate`
(`merged`, `perModule`, `warnings`). -/
structure CompiledConfig where
  merged : String
  perModule : List (String × String)
  warnings : List String
deriving DecidableEq

/-- Modelled from the spec: the assembler — drop modules with no lines,
keep the canonical order, separate retained modules with a `!` line. -/
def assemble (modules : List (String × List String))
    (warnings : List String) : CompiledConfig :=
  let meaningful := modules.filter (fun m => !m.2.isEmpty)
  { merged := joinLines ((meaningful.map (fun m => m.2 ++ ["!"])).flatten)
    perModule := meaningful.map (fun m => (m.1, joinLines m.2))
    warnings := warnings }

/-- Modelled from the spec: `compile(IntendedConfig)` — a pure function of
the document: per-module compilation, gating, conflict warnings, assembly. -/
def compileDoc (doc : SpecDocument) : CompiledConfig :=
  assemble (moduleList doc) (gateWarnings doc)

/-- The server-side state visible to a compile request (modelled from the
spec: compilation is stateless; the request counter stands for whatever
mutable state the service holds, which `compile` neither reads nor keeps). -/
structure ServerState where
  requests : Nat
deriving DecidableEq

/-- Modelled from the spec: one `POST /config/generate` round trip. -/
def compileCall (doc : SpecDocument) (s : ServerState) : CompiledConfig × ServerState :=
  (compileDoc doc, ⟨s.requests + 1⟩)

theorem strAppend_right_cancel {s t p : String} (h : s ++ p = t ++ p) : s = t := by
  have hd := congrArg String.data h
  rw [strData_append, strData_append] at hd
  exact strExt (List.append_cancel_right hd)

theorem mem_gateWarnings (doc : SpecDocument) (i : String) :
    conflictWarning i ∈ gateWarnings doc ↔ (i ∈ l2Names doc ∧ i ∈ l3Names doc) := by
  unfold gateWarnings
  rw [List.mem_map]
  constructor
  · rintro ⟨x, hx, hxeq⟩
    have hxi : x = i := strAppend_right_cancel hxeq
    subst hxi
    have := List.mem_dedup.mp hx
    have := List.mem_filter.mp this
    exact ⟨this.1, by simpa using this.2⟩
  · rintro ⟨h2, h3⟩
    exact ⟨i, List.mem_dedup.mpr (List.mem_filter.mpr ⟨h2, by simpa using h3⟩), rfl⟩

/-- C4: compiling a document in which an access port on `Gi0/1` coexists
with a routed-interface entry on `Gi0/1` yields a warning referencing
`Gi0/1`; and whenever `Gi0/1` no longer holds both an L2 and an L3 role
(e.g. after removing either entry), that warning is absent.  In general the
`Gi0/1` conflict warning is present exactly when `Gi0/1` holds both roles. -/
theorem compile_conflict_warning (doc : SpecDocument) :
    (∀ i, conflictWarning i ∈ (compileDoc doc).warnings
        ↔ (i ∈ l2Names doc ∧ i ∈ l3Names doc))
    ∧ (∀ sw ad, doc.switching = some sw → doc.addressing = some ad →
        "Gi0/1" ∈ sw.accessPorts.map (fun p => p.interface) →
        "Gi0/1" ∈ ad.interfaces.map (fun e => e.interface) →
        conflictWarning "Gi0/1" ∈ (compileDoc doc).warnings)
    ∧ (("Gi0/1" ∉ l2Names doc ∨ "Gi0/1" ∉ l3Names doc) →
        conflictWarning "Gi0/1" ∉ (compileDoc doc).warnings) := by
  have hw : (compileDoc doc).warnings = gateWarnings doc := rfl
  refine ⟨?_, ?_, ?_⟩
  · intro i
    rw [hw]
    exact mem_gateWarnings doc i
  · intro sw ad hsw had hacc hroute
    rw [hw]
    refine (mem_gateWarnings doc "Gi0/1").mpr ⟨?_, ?_⟩
    · unfold l2Names
      rw [hsw]
      exact List.mem_append_left _ (List.mem_append_left _ hacc)
    · unfold l3Names
      rw [had]
      exact List.mem_append_left _ (List.mem_append_left _ hroute)
  · intro hnot hmem
    rw [hw] at hmem
    have := (mem_gateWarnings doc "Gi0/1").mp hmem
    rcases hnot with h | h
    · exact h this.1
    · exact h this.2

/-- A document holding both the `Gi0/1` access port and the `Gi0/1` routed
entry. -/
def c4DocBoth : SpecDocument :=
  { hostname := "SW1"
    deviceType := .switch
    switchType := some .msw
    addressing := some ⟨[⟨"Gi0/1", "10.0.0.1", "255.255.255.0"⟩], []⟩
    switching := some ⟨[(10, "USERS")], [⟨"Gi0/1", 10⟩], [], []⟩
    routing := none
    services := none }

/-- `c4DocBoth` with the conflicting access port removed. -/
def c4DocNoAccess : SpecDocument :=
  { c4DocBoth with switching := some ⟨[(10, "USERS")], [], [], []⟩ }

/-- `c4DocBoth` with the conflicting routed entry removed. -/
def c4DocNoRouted : SpecDocument :=
  { c4DocBoth with addressing := some ⟨[], []⟩ }

theorem compile_conflict_warning_witness :
    conflictWarning "Gi0/1" ∈ (compileDoc c4DocBoth).warnings
    ∧ conflictWarning "Gi0/1" ∉ (compileDoc c4DocNoAccess).warnings
    ∧ conflictWarning "Gi0/1" ∉ (compileDoc c4DocNoRouted).warnings :=
  ⟨(compile_conflict_warning c4DocBoth).2.1 _ _ rfl rfl (by decide) (by decide),
   (compile_conflict_warning c4DocNoAccess).2.2 (Or.inl (by decide)),
   (compile_conflict_warning c4DocNoRouted).2.2 (Or.inr (by decide))⟩

/-- C7: `compile` is pure, deterministic and idempotent — a second compile
call on the unchanged document returns byte-identical merged text (even
though the intervening call advanced the server state), and the result does
not depend on the server state at all. -/
theorem compileCall_idempotent (doc : SpecDocument) (s : ServerState) :
    ((compileCall doc s).1.merged = (compileCall doc (compileCall doc s).2).1.merged)
    ∧ (∀ s' : ServerState, (compileCall doc s').1 = (compileCall doc s).1) :=
  ⟨rfl, fun _ => rfl⟩

/-! ## app/project/page.tsx: normalizeServerUrl

`normalizeServerUrl` trims its input, tries `new URL(...)` and keeps only
`protocol` + `//` + `host`.  The `URL` constructor is a platform API; the
parser below models the WHATWG algorithm for the inputs this form handles:
tab/newline removal, scheme validation and ASCII lowercasing, authority
extraction (all slashes skipped for special schemes, an explicit `//` for
others), credential stripping at the last `@`, host validation against
forbidden host code points, ASCII host lowercasing for special schemes, and
port parsing with default-port elision.  Not modelled: IPv6 host brackets
(they are rejected), percent-encoding, and backslashes as slashes. -/

def isTabOrNewline (c : Char) : Bool :=
  c.toNat = 9 || c.toNat = 10 || c.toNat = 13

def cleanChars (l : List Char) : List Char :=
  l.filter (fun c => !isTabOrNewline c)

def isSchemeStartChar (c : Char) : Bool :=
  (97 ≤ c.toNat && c.toNat ≤ 122) || (65 ≤ c.toNat && c.toNat ≤ 90)

def isSchemeChar (c : Char) : Bool :=
  isSchemeStartChar c || (48 ≤ c.toNat && c.toNat ≤ 57)
    || c.toNat = 43 || c.toNat = 45 || c.toNat = 46

def schemeOk : List Char → Bool
  | [] => false
  | c :: cs => isSchemeStartChar c && cs.all isSchemeChar

def isDigitChar (c : Char) : Bool :=
  48 ≤ c.toNat && c.toNat ≤ 57

/-- Not a forbidden host code point (space, controls, `# / ? @ : < > [ \ ] ^ |`). -/
def hostCharOk (c : Char) : Bool :=
  !(c.toNat = 32 || c.toNat = 9 || c.toNat = 10 || c.toNat = 13
    || c.toNat = 35 || c.toNat = 47 || c.toNat = 63 || c.toNat = 64
    || c.toNat = 58 || c.toNat = 60 || c.toNat = 62 || c.toNat = 91
    || c.toNat = 92 || c.toNat = 93 || c.toNat = 94 || c.toNat = 124)

/-- Authority continues until `/`, `?` or `#`. -/
def authChar (c : Char) : Bool :=
  !(c.toNat = 47 || c.toNat = 63 || c.toNat = 35)

def specialScheme (s : String) : Bool :=
  s = "http" || s = "https" || s = "ws" || s = "wss" || s = "ftp" || s = "file"

def defaultPort (s : String) : Option Nat :=
  if s = "http" || s = "ws" then some 80
  else if s = "https" || s = "wss" then some 443
  else if s = "ftp" then some 21
  else none

def digitsVal (l : List Char) : Nat :=
  l.foldl (fun a c => a * 10 + (c.toNat - 48)) 0

/-- Authority extraction: non-`file` special schemes skip any number of
slashes; `file` and non-special schemes take an authority only after an
explicit `//`. -/
def parseAuthority (dropAllSlashes : Bool) (afterColon : List Char) : List Char :=
  if dropAllSlashes then (afterColon.dropWhile (fun c => c = '/')).takeWhile authChar
  else
    match afterColon with
    | '/' :: '/' :: r => r.takeWhile authChar
    | _ => []

def stripUserinfo (authority : List Char) : List Char :=
  (authority.reverse.takeWhile (fun c => c ≠ '@')).reverse

def splitHostPort (hostport : List Char) : List Char × Option (List Char) :=
  if hostport.any (fun c => c = ':') then
    (((hostport.reverse.dropWhile (fun c => c ≠ ':')).drop 1).reverse,
     some ((hostport.reverse.takeWhile (fun c => c ≠ ':')).reverse))
  else (hostport, none)

/-- ASCII host lowercasing applies only to special schemes (domain hosts);
opaque hosts are kept verbatim. -/
def normHostname (s : String) (hostChars : List Char) : List Char :=
  if specialScheme s then hostChars.map asciiLower else hostChars

/-- Port validation and serialization: digits only, at most 65535, empty
and default ports elided, otherwise shortest decimal with the colon. -/
def buildPort (s : String) (pcs : List Char) : Option (List Char) :=
  if pcs.all isDigitChar then
    if pcs.isEmpty then some []
    else if 65535 < digitsVal pcs then none
    else
      match defaultPort s with
      | some d =>
        if digitsVal pcs = d then some []
        else some (':' :: (decStr (digitsVal pcs)).data)
      | none => some (':' :: (decStr (digitsVal pcs)).data)
  else none

def buildHost (s : String) (hostChars : List Char) (port : Option (List Char)) :
    Option (List Char) :=
  if hostChars.all hostCharOk then
    if hostChars.isEmpty && specialScheme s && !(s == "file") then none
    else
      match port with
      | none => some (normHostname s hostChars)
      | some pcs =>
        match buildPort s pcs with
        | some pp => some (normHostname s hostChars ++ pp)
        | none => none
  else none

/-- Authority, host and port handling once a valid (already lowercased)
scheme has been read. -/
def parseAfterScheme (scheme : List Char) (afterColon : List Char) :
    Option (List Char × List Char) :=
  match buildHost (String.mk scheme)
      (splitHostPort (stripUserinfo (parseAuthority
        (specialScheme (String.mk scheme) && !(String.mk scheme == "file")) afterColon))).1
      (splitHostPort (stripUserinfo (parseAuthority
        (specialScheme (String.mk scheme) && !(String.mk scheme == "file")) afterColon))).2 with
  | some host => some (scheme ++ [':'], host)
  | none => none

def parseURLChars (l0 : List Char) : Option (List Char × List Char) :=
  match (cleanChars l0).dropWhile (fun c => c ≠ ':') with
  | [] => none
  | _ :: afterColon =>
    if schemeOk ((cleanChars l0).takeWhile (fun c => c ≠ ':')) then
      parseAfterScheme (((cleanChars l0).takeWhile (fun c => c ≠ ':')).map asciiLower) afterColon
    else none

/-- The modelled `new URL(v)`, reduced to the two components the form
reads: `u.protocol` (scheme with trailing colon) and `u.host`
(hostname plus non-default port). -/
def parseURL (s : String) : Option (String × String) :=
  match parseURLChars s.data with
  | some ph => some (⟨ph.1⟩, ⟨ph.2⟩)
  | none => none

/-- `normalizeServerUrl` from the connect page: trim; if the trimmed text
parses as a URL keep only origin-ish `protocol//host`, otherwise return the
trimmed text. -/
def normalizeServerUrl (raw : String) : String :=
  let v := jsTrim raw
  match parseURL v with
  | some ph => ph.1 ++ "//" ++ ph.2
  | none => v

/-! ### Character-code lemmas -/

theorem char_toNat_inj {c d : Char} (h : c.toNat = d.toNat) : c = d := by
  have hc := Char.ofNat_toNat c
  rw [h, Char.ofNat_toNat] at hc
  exact hc.symm

theorem char_ne_of_toNat_ne {c d : Char} (h : c.toNat ≠ d.toNat) : c ≠ d :=
  fun he => h (congrArg Char.toNat he)

theorem charOfNat_plus32 : ∀ m, m < 91 → 65 ≤ m → (Char.ofNat (m + 32)).toNat = m + 32 := by
  decide

theorem asciiLower_toNat (c : Char) :
    (asciiLower c).toNat
      = if 65 ≤ c.toNat ∧ c.toNat ≤ 90 then c.toNat + 32 else c.toNat := by
  unfold asciiLower
  by_cases h : 65 ≤ c.toNat ∧ c.toNat ≤ 90
  · rw [if_pos h, if_pos h, charOfNat_plus32 c.toNat (by omega) h.1]
  · rw [if_neg h, if_neg h]

theorem asciiLower_idem (c : Char) : asciiLower (asciiLower c) = asciiLower c := by
  apply char_toNat_inj
  rw [asciiLower_toNat (asciiLower c)]
  by_cases h : 65 ≤ c.toNat ∧ c.toNat ≤ 90
  · have h1 : (asciiLower c).toNat = c.toNat + 32 := by rw [asciiLower_toNat, if_pos h]
    rw [if_neg (by omega)]
  · have h1 : (asciiLower c).toNat = c.toNat := by rw [asciiLower_toNat, if_neg h]
    rw [if_neg (by omega)]

theorem notWhitespace_of_toNat {c : Char}
    (h : c.toNat ≠ 32 ∧ c.toNat ≠ 9 ∧ c.toNat ≠ 13 ∧ c.toNat ≠ 10) :
    Char.isWhitespace c = false := by
  unfold Char.isWhitespace
  have h1 : c ≠ ' ' := char_ne_of_toNat_ne (by simpa using h.1)
  have h2 : c ≠ '\t' := char_ne_of_toNat_ne (by simpa using h.2.1)
  have h3 : c ≠ '\r' := char_ne_of_toNat_ne (by simpa using h.2.2.1)
  have h4 : c ≠ '\n' := char_ne_of_toNat_ne (by simpa using h.2.2.2)
  simp [h1, h2, h3, h4]

/-! ### List scanning helpers -/

theorem takeWhile_eq_self_of_all (p : Char → Bool) :
    ∀ l : List Char, (∀ c ∈ l, p c = true) → l.takeWhile p = l := by
  intro l
  induction l with
  | nil => intro _; rfl
  | cons c cs ih =>
    intro h
    rw [List.takeWhile_cons, if_pos (h c (List.mem_cons_self c cs)),
      ih (fun d hd => h d (List.mem_cons_of_mem c hd))]

theorem takeWhile_append_sentinel (p : Char → Bool) (x : Char) (B : List Char)
    (hx : p x = false) :
    ∀ A : List Char, (∀ c ∈ A, p c = true) →
      (A ++ x :: B).takeWhile p = A ∧ (A ++ x :: B).dropWhile p = x :: B := by
  intro A
  induction A with
  | nil =>
    intro _
    constructor
    · rw [List.nil_append, List.takeWhile_cons, if_neg (by simp [hx])]
    · rw [List.nil_append, List.dropWhile_cons, if_neg (by simp [hx])]
  | cons a as ih =>
    intro h
    have ha : p a = true := h a (List.mem_cons_self a as)
    have := ih (fun d hd => h d (List.mem_cons_of_mem a hd))
    constructor
    · rw [List.cons_append, List.takeWhile_cons, if_pos ha, this.1]
    · rw [List.cons_append, List.dropWhile_cons, if_pos ha, this.2]

theorem dropWhile_cons_of_pos {p : Char → Bool} {c : Char} (l : List Char)
    (h : p c = true) : (c :: l).dropWhile p = l.dropWhile p := by
  rw [List.dropWhile_cons, if_pos h]

theorem trimCharList_eq_self (l : List Char)
    (h1 : ∀ c, l.head? = some c → Char.isWhitespace c = false)
    (h2 : ∀ c, l.getLast? = some c → Char.isWhitespace c = false) :
    trimCharList l = l := by
  unfold trimCharList
  rw [dropWhile_eq_self_of_head _ l h1,
    dropWhile_eq_self_of_head _ l.reverse (by
      intro c hc
      rw [List.head?_reverse] at hc
      exact h2 c hc),
    List.reverse_reverse]

/-! ### Decimal-string facts -/

theorem digitChar_toNat : ∀ d, d < 10 → (digitChar d).toNat = 48 + d := by decide

theorem decStr_all_digit (n : Nat) : ∀ c ∈ (decStr n).data, isDigitChar c = true := by
  intro c hc
  by_cases hn : n = 0
  · subst hn
    have : c = '0' := by simpa [decStr] using hc
    subst this
    decide
  · rw [decStr_digits_chars n hn] at hc
    obtain ⟨d, hd, rfl⟩ := List.mem_map.mp hc
    have hd10 : d < 10 := Nat.digits_lt_base (by norm_num) (List.mem_reverse.mp hd)
    have := digitChar_toNat d hd10
    simp only [isDigitChar, this]
    simp only [Bool.and_eq_true, decide_eq_true_eq]
    omega

theorem decStr_data_ne_nil (n : Nat) : (decStr n).data ≠ [] := by
  by_cases hn : n = 0
  · subst hn
    simp [decStr]
  · rw [decStr_digits_chars n hn]
    simp only [ne_eq, List.map_eq_nil_iff, List.reverse_eq_nil_iff]
    exact Nat.digits_ne_nil_iff_ne_zero.mpr hn

theorem foldl_map_digitChar :
    ∀ (L : List Nat) (acc : Nat), (∀ d ∈ L, d < 10) →
      (L.map digitChar).foldl (fun a c => a * 10 + (c.toNat - 48)) acc
        = L.foldl (fun a d => a * 10 + d) acc := by
  intro L
  induction L with
  | nil => intro acc _; rfl
  | cons d ds ih =>
    intro acc h
    rw [List.map_cons, List.foldl_cons, List.foldl_cons,
      digitChar_toNat d (h d (List.mem_cons_self d ds))]
    rw [show 48 + d - 48 = d from by omega]
    exact ih _ (fun e he => h e (List.mem_cons_of_mem d he))

theorem foldr_base10 : ∀ L : List Nat, L.foldr (fun d a => a * 10 + d) 0 = Nat.ofDigits 10 L := by
  intro L
  induction L with
  | nil => simp [Nat.ofDigits]
  | cons d ds ih =>
    rw [List.foldr_cons, ih, Nat.ofDigits_cons]
    ring

theorem digitsVal_decStr (n : Nat) : digitsVal (decStr n).data = n := by
  by_cases hn : n = 0
  · subst hn
    decide
  · rw [decStr_digits_chars n hn]
    unfold digitsVal
    rw [foldl_map_digitChar _ 0
      (fun d hd => Nat.digits_lt_base (by norm_num) (List.mem_reverse.mp hd))]
    rw [List.foldl_reverse]
    rw [foldr_base10, Nat.ofDigits_digits]

/-! ### Lowercasing preserves the character classes -/

theorem asciiLower_cases (c : Char) :
    asciiLower c = c ∨ (97 ≤ (asciiLower c).toNat ∧ (asciiLower c).toNat ≤ 122) := by
  by_cases h : 65 ≤ c.toNat ∧ c.toNat ≤ 90
  · right
    rw [asciiLower_toNat, if_pos h]
    omega
  · left
    unfold asciiLower
    rw [if_neg h]

theorem hostCharOk_toNat {c : Char} (h : hostCharOk c = true) :
    c.toNat ≠ 32 ∧ c.toNat ≠ 9 ∧ c.toNat ≠ 10 ∧ c.toNat ≠ 13
    ∧ c.toNat ≠ 35 ∧ c.toNat ≠ 47 ∧ c.toNat ≠ 63 ∧ c.toNat ≠ 64
    ∧ c.toNat ≠ 58 ∧ c.toNat ≠ 60 ∧ c.toNat ≠ 62 ∧ c.toNat ≠ 91
    ∧ c.toNat ≠ 92 ∧ c.toNat ≠ 93 ∧ c.toNat ≠ 94 ∧ c.toNat ≠ 124 := by
  simp only [hostCharOk, Bool.not_eq_true', Bool.or_eq_false_iff,
    decide_eq_false_iff_not] at h
  tauto

theorem hostCharOk_of_range {c : Char} (h97 : 97 ≤ c.toNat) (h122 : c.toNat ≤ 122) :
    hostCharOk c = true := by
  simp only [hostCharOk, Bool.not_eq_true', Bool.or_eq_false_iff,
    decide_eq_false_iff_not]
  omega

theorem hostCharOk_asciiLower {c : Char} (h : hostCharOk c = true) :
    hostCharOk (asciiLower c) = true := by
  rcases asciiLower_cases c with he | hr
  · rw [he]
    exact h
  · exact hostCharOk_of_range hr.1 hr.2

theorem isSchemeStartChar_toNat {c : Char} (h : isSchemeStartChar c = true) :
    (97 ≤ c.toNat ∧ c.toNat ≤ 122) ∨ (65 ≤ c.toNat ∧ c.toNat ≤ 90) := by
  simp only [isSchemeStartChar, Bool.or_eq_true, Bool.and_eq_true,
    decide_eq_true_eq] at h
  exact h

theorem isSchemeChar_toNat {c : Char} (h : isSchemeChar c = true) :
    (97 ≤ c.toNat ∧ c.toNat ≤ 122) ∨ (65 ≤ c.toNat ∧ c.toNat ≤ 90)
    ∨ (48 ≤ c.toNat ∧ c.toNat ≤ 57) ∨ c.toNat = 43 ∨ c.toNat = 45 ∨ c.toNat = 46 := by
  simp only [isSchemeChar, isSchemeStartChar, Bool.or_eq_true, Bool.and_eq_true,
    decide_eq_true_eq] at h
  tauto

theorem isSchemeStartChar_asciiLower {c : Char} (h : isSchemeStartChar c = true) :
    isSchemeStartChar (asciiLower c) = true := by
  rcases asciiLower_cases c with he | hr
  · rw [he]
    exact h
  · simp only [isSchemeStartChar, Bool.or_eq_true, Bool.and_eq_true, decide_eq_true_eq]
    left
    exact hr

theorem isSchemeChar_asciiLower {c : Char} (h : isSchemeChar c = true) :
    isSchemeChar (asciiLower c) = true := by
  rcases asciiLower_cases c with he | hr
  · rw [he]
    exact h
  · simp only [isSchemeChar, isSchemeStartChar, Bool.or_eq_true, Bool.and_eq_true,
      decide_eq_true_eq]
    omega

theorem schemeOk_map_lower {sc : List Char} (h : schemeOk sc = true) :
    schemeOk (sc.map asciiLower) = true := by
  cases sc with
  | nil => cases h
  | cons c cs =>
    simp only [schemeOk, Bool.and_eq_true, List.all_eq_true] at h
    simp only [List.map_cons, schemeOk, Bool.and_eq_true, List.all_eq_true]
    refine ⟨isSchemeStartChar_asciiLower h.1, ?_⟩
    intro x hx
    obtain ⟨d, hd, rfl⟩ := List.mem_map.mp hx
    exact isSchemeChar_asciiLower (h.2 d hd)

theorem map_asciiLower_idem (l : List Char) :
    (l.map asciiLower).map asciiLower = l.map asciiLower := by
  rw [List.map_map]
  exact List.map_congr_left (fun a _ => asciiLower_idem a)

/-! ### Soundness: the shape of a parsed protocol/host pair -/

/-- The invariants a parsed host component satisfies: a validated hostname
(lower-fixed for special schemes, non-empty unless the scheme allows it)
followed by an optional normalized non-default port. -/
def HostInv (s : String) (host : List Char) : Prop :=
  ∃ hostname portPart, host = hostname ++ portPart
    ∧ (∀ c ∈ hostname, hostCharOk c = true)
    ∧ (hostname = [] → ¬(specialScheme s = true ∧ s ≠ "file"))
    ∧ (specialScheme s = true → hostname.map asciiLower = hostname)
    ∧ (portPart = [] ∨ ∃ pv, pv ≤ 65535
        ∧ portPart = ':' :: (decStr pv).data
        ∧ (∀ d, defaultPort s = some d → pv ≠ d))

theorem buildPort_inv {s : String} {pcs pp : List Char}
    (h : buildPort s pcs = some pp) :
    pp = [] ∨ ∃ pv, pv ≤ 65535 ∧ pp = ':' :: (decStr pv).data
      ∧ (∀ d, defaultPort s = some d → pv ≠ d) := by
  unfold buildPort at h
  by_cases h1 : pcs.all isDigitChar = true
  · rw [if_pos h1] at h
    by_cases h2 : pcs.isEmpty = true
    · rw [if_pos h2] at h
      injection h with h
      exact Or.inl h.symm
    · rw [if_neg h2] at h
      by_cases h3 : 65535 < digitsVal pcs
      · rw [if_pos h3] at h
        cases h
      · rw [if_neg h3] at h
        cases hdp : defaultPort s with
        | none =>
          rw [hdp] at h
          simp only [] at h
          injection h with h
          exact Or.inr ⟨digitsVal pcs, by omega, h.symm, fun d hd => by cases hd⟩
        | some d =>
          rw [hdp] at h
          simp only [] at h
          by_cases h4 : digitsVal pcs = d
          · rw [if_pos h4] at h
            injection h with h
            exact Or.inl h.symm
          · rw [if_neg h4] at h
            injection h with h
            exact Or.inr ⟨digitsVal pcs, by omega, h.symm, fun d' hd' => by
              injection hd' with hd'
              rw [← hd']
              exact h4⟩
  · rw [if_neg h1] at h
    cases h

theorem normHostname_ok {s : String} {hc : List Char}
    (h : ∀ c ∈ hc, hostCharOk c = true) :
    (∀ c ∈ normHostname s hc, hostCharOk c = true)
    ∧ (normHostname s hc = [] ↔ hc = [])
    ∧ (specialScheme s = true → (normHostname s hc).map asciiLower = normHostname s hc) := by
  unfold normHostname
  by_cases hs : specialScheme s = true
  · rw [if_pos hs]
    refine ⟨?_, by simp, fun _ => map_asciiLower_idem hc⟩
    intro c hcm
    obtain ⟨d, hd, rfl⟩ := List.mem_map.mp hcm
    exact hostCharOk_asciiLower (h d hd)
  · rw [if_neg hs]
    exact ⟨h, Iff.rfl, fun hs' => absurd hs' hs⟩

theorem buildHost_inv {s : String} {hc : List Char} {port : Option (List Char)}
    {host : List Char} (h : buildHost s hc port = some host) : HostInv s host := by
  unfold buildHost at h
  by_cases h1 : hc.all hostCharOk = true
  · rw [if_pos h1] at h
    have h1' : ∀ c ∈ hc, hostCharOk c = true := List.all_eq_true.mp h1
    by_cases h2 : (hc.isEmpty && specialScheme s && !(s == "file")) = true
    · rw [if_pos h2] at h
      cases h
    · rw [if_neg h2] at h
      have hguard : hc = [] → ¬(specialScheme s = true ∧ s ≠ "file") := by
        intro hnil hcon
        apply h2
        rw [hnil]
        simp only [List.isEmpty_nil, Bool.true_and, Bool.and_eq_true, hcon.1,
          Bool.not_eq_true', beq_eq_false_iff_ne, ne_eq, true_and]
        exact hcon.2
      obtain ⟨hok, hempty, hlower⟩ := normHostname_ok (s := s) h1'
      cases port with
      | none =>
        simp only [] at h
        injection h with h
        exact ⟨normHostname s hc, [], by rw [← h, List.append_nil], hok,
          fun hnil => hguard (hempty.mp hnil), hlower, Or.inl rfl⟩
      | some pcs =>
        simp only [] at h
        cases hbp : buildPort s pcs with
        | none =>
          rw [hbp] at h
          cases h
        | some pp =>
          rw [hbp] at h
          injection h with h
          exact ⟨normHostname s hc, pp, h.symm, hok,
            fun hnil => hguard (hempty.mp hnil), hlower, buildPort_inv hbp⟩
  · rw [if_neg h1] at h
    cases h

theorem parseURLChars_sound {l p h : List Char}
    (hp : parseURLChars l = some (p, h)) :
    ∃ sc, p = sc ++ [':'] ∧ schemeOk sc = true ∧ sc.map asciiLower = sc
      ∧ HostInv (String.mk sc) h := by
  unfold parseURLChars at hp
  cases hsplit : (cleanChars l).dropWhile (fun c => c ≠ ':') with
  | nil =>
    rw [hsplit] at hp
    cases hp
  | cons x afterColon =>
    rw [hsplit] at hp
    simp only [] at hp
    by_cases hsch : schemeOk ((cleanChars l).takeWhile (fun c => c ≠ ':')) = true
    · rw [if_pos hsch] at hp
      unfold parseAfterScheme at hp
      cases hbh : buildHost
          (String.mk (((cleanChars l).takeWhile (fun c => c ≠ ':')).map asciiLower))
          (splitHostPort (stripUserinfo (parseAuthority
            (specialScheme (String.mk (((cleanChars l).takeWhile (fun c => c ≠ ':')).map asciiLower))
              && !(String.mk (((cleanChars l).takeWhile (fun c => c ≠ ':')).map asciiLower) == "file"))
            afterColon))).1
          (splitHostPort (stripUserinfo (parseAuthority
            (specialScheme (String.mk (((cleanChars l).takeWhile (fun c => c ≠ ':')).map asciiLower))
              && !(String.mk (((cleanChars l).takeWhile (fun c => c ≠ ':')).map asciiLower) == "file"))
            afterColon))).2 with
      | none =>
        rw [hbh] at hp
        cases hp
      | some host =>
        rw [hbh] at hp
        injection hp with hp
        injection hp with hp1 hp2
        refine ⟨((cleanChars l).takeWhile (fun c => c ≠ ':')).map asciiLower,
          hp1.symm, schemeOk_map_lower hsch, map_asciiLower_idem _, ?_⟩
        rw [← hp2]
        exact buildHost_inv hbh
    · rw [if_neg hsch] at hp
      cases hp

/-! ### Round trip: re-parsing a normalized protocol//host pair -/

theorem mem_of_head? {α : Type} {l : List α} {a : α} (h : l.head? = some a) : a ∈ l := by
  cases l with
  | nil => cases h
  | cons x xs =>
    injection h with h
    rw [← h]
    exact List.mem_cons_self x xs

theorem getLast?_mem {α : Type} {l : List α} {a : α} (h : l.getLast? = some a) : a ∈ l := by
  rw [List.getLast?_eq_head?_reverse] at h
  exact List.mem_reverse.mp (mem_of_head? h)

theorem schemeOk_all_schemeChar {sc : List Char} (h : schemeOk sc = true) :
    ∀ c ∈ sc, isSchemeChar c = true := by
  cases sc with
  | nil => cases h
  | cons c cs =>
    simp only [schemeOk, Bool.and_eq_true, List.all_eq_true] at h
    intro d hd
    rcases List.mem_cons.mp hd with rfl | hd'
    · simp only [isSchemeChar, h.1, Bool.true_or]
    · exact h.2 d hd'

theorem digit_toNat_facts {c : Char} (h : isDigitChar c = true) :
    48 ≤ c.toNat ∧ c.toNat ≤ 57 := by
  simpa [isDigitChar, Bool.and_eq_true, decide_eq_true_eq] using h

theorem cleanChars_eq_self {l : List Char}
    (h : ∀ c ∈ l, c.toNat ≠ 9 ∧ c.toNat ≠ 10 ∧ c.toNat ≠ 13) : cleanChars l = l := by
  apply List.filter_eq_self.mpr
  intro c hc
  have := h c hc
  simp only [isTabOrNewline, Bool.not_eq_true', Bool.or_eq_false_iff,
    decide_eq_false_iff_not]
  omega

theorem stripUserinfo_eq_self {l : List Char} (h : ∀ c ∈ l, c.toNat ≠ 64) :
    stripUserinfo l = l := by
  unfold stripUserinfo
  rw [takeWhile_eq_self_of_all _ l.reverse (by
    intro c hc
    have := h c (List.mem_reverse.mp hc)
    simp only [decide_eq_true_eq]
    exact char_ne_of_toNat_ne (by rw [show ('@' : Char).toNat = 64 from rfl]; omega)),
    List.reverse_reverse]

theorem parseAuthority_roundtrip (b : Bool) {host : List Char}
    (hhead : ∀ c, host.head? = some c → c.toNat ≠ 47)
    (hauth : ∀ c ∈ host, c.toNat ≠ 47 ∧ c.toNat ≠ 63 ∧ c.toNat ≠ 35) :
    parseAuthority b ('/' :: '/' :: host) = host := by
  have htake : host.takeWhile authChar = host := by
    apply takeWhile_eq_self_of_all
    intro c hc
    have := hauth c hc
    simp only [authChar, Bool.not_eq_true', Bool.or_eq_false_iff,
      decide_eq_false_iff_not]
    omega
  cases b with
  | false =>
    unfold parseAuthority
    rw [if_neg (by simp)]
    exact htake
  | true =>
    unfold parseAuthority
    rw [if_pos rfl]
    rw [dropWhile_cons_of_pos _ (by simp), dropWhile_cons_of_pos _ (by simp)]
    rw [dropWhile_eq_self_of_head _ host (by
      intro c hc
      have h47 := hhead c hc
      simp only [decide_eq_false_iff_not]
      exact char_ne_of_toNat_ne (by rw [show ('/' : Char).toNat = 47 from rfl]; omega))]
    exact htake

theorem splitHostPort_no_colon {hostname : List Char}
    (h : ∀ c ∈ hostname, c.toNat ≠ 58) :
    splitHostPort hostname = (hostname, none) := by
  unfold splitHostPort
  have hany : hostname.any (fun c => c = ':') = false := by
    apply List.any_eq_false.mpr
    intro c hc
    simp only [decide_eq_true_eq]
    exact char_ne_of_toNat_ne (by rw [show (':' : Char).toNat = 58 from rfl]; exact h c hc)
  rw [if_neg (by rw [hany]; exact Bool.false_ne_true)]

theorem splitHostPort_with_port {hostname ds : List Char}
    (hds : ∀ c ∈ ds, c.toNat ≠ 58) :
    splitHostPort (hostname ++ ':' :: ds) = (hostname, some ds) := by
  unfold splitHostPort
  have hmem : (':' : Char) ∈ hostname ++ ':' :: ds :=
    List.mem_append_right _ (List.mem_cons_self _ _)
  rw [if_pos (List.any_eq_true.mpr ⟨':', hmem, by simp⟩)]
  have hrev : (hostname ++ ':' :: ds).reverse = ds.reverse ++ ':' :: hostname.reverse := by
    rw [List.reverse_append, List.reverse_cons, List.append_assoc, List.singleton_append]
  rw [hrev]
  obtain ⟨ht, hd⟩ := takeWhile_append_sentinel (fun c => decide (c ≠ ':')) ':'
    hostname.reverse (by simp) ds.reverse
    (by
      intro c hc
      simp only [decide_eq_true_eq]
      exact char_ne_of_toNat_ne
        (by rw [show (':' : Char).toNat = 58 from rfl]; exact hds c (List.mem_reverse.mp hc)))
  rw [ht, hd]
  simp only [List.drop_succ_cons, List.drop_zero, List.reverse_reverse]

theorem buildPort_roundtrip {s : String} {pv : Nat} (hpv : pv ≤ 65535)
    (hdef : ∀ d, defaultPort s = some d → pv ≠ d) :
    buildPort s (decStr pv).data = some (':' :: (decStr pv).data) := by
  unfold buildPort
  rw [if_pos (List.all_eq_true.mpr (decStr_all_digit pv))]
  have hne : (decStr pv).data.isEmpty = false := by
    cases hdd : (decStr pv).data with
    | nil => exact absurd hdd (decStr_data_ne_nil pv)
    | cons _ _ => rfl
  rw [if_neg (by rw [hne]; exact Bool.false_ne_true)]
  rw [digitsVal_decStr]
  rw [if_neg (by omega)]
  cases hdp : defaultPort s with
  | none => rfl
  | some d =>
    simp only []
    rw [if_neg (hdef d hdp)]

theorem parseAfterScheme_roundtrip {sc hostname portPart : List Char}
    (hhok : ∀ c ∈ hostname, hostCharOk c = true)
    (hhempty : hostname = [] →
      ¬(specialScheme (String.mk sc) = true ∧ (String.mk sc) ≠ "file"))
    (hhlower : specialScheme (String.mk sc) = true →
      hostname.map asciiLower = hostname)
    (hport : portPart = [] ∨ ∃ pv, pv ≤ 65535
        ∧ portPart = ':' :: (decStr pv).data
        ∧ (∀ d, defaultPort (String.mk sc) = some d → pv ≠ d)) :
    parseAfterScheme sc ('/' :: '/' :: (hostname ++ portPart))
      = some (sc ++ [':'], hostname ++ portPart) := by
  have hhost58 : ∀ c ∈ hostname, c.toNat ≠ 58 := by
    intro c hc
    have := hostCharOk_toNat (hhok c hc)
    omega
  have hhead : ∀ c, (hostname ++ portPart).head? = some c → c.toNat ≠ 47 := by
    intro c hc
    cases hostname with
    | cons a as =>
      rw [List.cons_append, List.head?_cons] at hc
      injection hc with hc
      rw [← hc]
      have := hostCharOk_toNat (hhok a (List.mem_cons_self a as))
      omega
    | nil =>
      rw [List.nil_append] at hc
      rcases hport with rfl | ⟨pv, _, rfl, _⟩
      · cases hc
      · rw [List.head?_cons] at hc
        injection hc with hc
        rw [← hc]
        decide
  have hhostmem : ∀ c ∈ hostname ++ portPart,
      c.toNat ≠ 9 ∧ c.toNat ≠ 10 ∧ c.toNat ≠ 13 ∧ c.toNat ≠ 32 ∧ c.toNat ≠ 35
      ∧ c.toNat ≠ 47 ∧ c.toNat ≠ 63 ∧ c.toNat ≠ 64 := by
    intro c hc
    rcases List.mem_append.mp hc with hc | hc
    · have := hostCharOk_toNat (hhok c hc)
      omega
    · rcases hport with rfl | ⟨pv, _, rfl, _⟩
      · cases hc
      · rcases List.mem_cons.mp hc with rfl | hc'
        · decide
        · have := digit_toNat_facts (decStr_all_digit pv c hc')
          omega
  have hguard : ¬((hostname.isEmpty && specialScheme (String.mk sc)
      && !((String.mk sc) == "file")) = true) := by
    intro hcon
    simp only [Bool.and_eq_true, Bool.not_eq_true', beq_eq_false_iff_ne, ne_eq] at hcon
    have hnil : hostname = [] := by
      cases hostname with
      | nil => rfl
      | cons _ _ => cases hcon.1.1
    exact hhempty hnil ⟨hcon.1.2, hcon.2⟩
  have hnh : normHostname (String.mk sc) hostname = hostname := by
    unfold normHostname
    by_cases hs : specialScheme (String.mk sc) = true
    · rw [if_pos hs]
      exact hhlower hs
    · rw [if_neg hs]
  unfold parseAfterScheme
  rw [parseAuthority_roundtrip _ hhead (fun c hc => by have := hhostmem c hc; omega)]
  rw [stripUserinfo_eq_self (fun c hc => by have := hhostmem c hc; omega)]
  rcases hport with rfl | ⟨pv, hpv, rfl, hdef⟩
  · rw [List.append_nil]
    rw [splitHostPort_no_colon hhost58]
    simp only []
    have hb : buildHost (String.mk sc) hostname none = some hostname := by
      unfold buildHost
      rw [if_pos (List.all_eq_true.mpr hhok), if_neg hguard]
      simp only []
      rw [hnh]
    rw [hb]
  · have hds58 : ∀ c ∈ (decStr pv).data, c.toNat ≠ 58 := by
      intro c hc
      have := digit_toNat_facts (decStr_all_digit pv c hc)
      omega
    rw [splitHostPort_with_port hds58]
    simp only []
    have hb : buildHost (String.mk sc) hostname (some (decStr pv).data)
        = some (hostname ++ ':' :: (decStr pv).data) := by
      unfold buildHost
      rw [if_pos (List.all_eq_true.mpr hhok), if_neg hguard]
      simp only []
      rw [buildPort_roundtrip hpv hdef]
      simp only []
      rw [hnh]
    rw [hb]

theorem parseURLChars_roundtrip {sc host : List Char}
    (hsc : schemeOk sc = true) (hlower : sc.map asciiLower = sc)
    (hinv : HostInv (String.mk sc) host) :
    parseURLChars (sc ++ ':' :: '/' :: '/' :: host) = some (sc ++ [':'], host) := by
  obtain ⟨hostname, portPart, rfl, hhok, hhempty, hhlower, hport⟩ := hinv
  have hscChars := schemeOk_all_schemeChar hsc
  have hclean : cleanChars (sc ++ ':' :: '/' :: '/' :: (hostname ++ portPart))
      = sc ++ ':' :: '/' :: '/' :: (hostname ++ portPart) := by
    apply cleanChars_eq_self
    intro c hc
    rcases List.mem_append.mp hc with hc | hc
    · have := isSchemeChar_toNat (hscChars c hc)
      omega
    · rcases List.mem_cons.mp hc with rfl | hc
      · decide
      · rcases List.mem_cons.mp hc with rfl | hc
        · decide
        · rcases List.mem_cons.mp hc with rfl | hc
          · decide
          · rcases List.mem_append.mp hc with hc | hc
            · have := hostCharOk_toNat (hhok c hc)
              omega
            · rcases hport with rfl | ⟨pv, _, rfl, _⟩
              · cases hc
              · rcases List.mem_cons.mp hc with rfl | hc'
                · decide
                · have := digit_toNat_facts (decStr_all_digit pv c hc')
                  omega
  obtain ⟨ht, hd⟩ := takeWhile_append_sentinel (fun c => decide (c ≠ ':')) ':'
    ('/' :: '/' :: (hostname ++ portPart)) (by simp) sc
    (by
      intro c hc
      simp only [decide_eq_true_eq]
      have := isSchemeChar_toNat (hscChars c hc)
      exact char_ne_of_toNat_ne (by rw [show (':' : Char).toNat = 58 from rfl]; omega))
  unfold parseURLChars
  rw [hclean, hd]
  simp only []
  rw [ht, if_pos hsc, hlower]
  exact parseAfterScheme_roundtrip hhok hhempty hhlower hport

theorem normalized_trim {sc host : List Char} (hsc : schemeOk sc = true)
    (hinv : HostInv (String.mk sc) host) :
    trimCharList (sc ++ ':' :: '/' :: '/' :: host)
      = sc ++ ':' :: '/' :: '/' :: host := by
  obtain ⟨hostname, portPart, rfl, hhok, _, _, hport⟩ := hinv
  have hostWs : ∀ c ∈ ':' :: '/' :: '/' :: (hostname ++ portPart),
      Char.isWhitespace c = false := by
    intro c hc
    rcases List.mem_cons.mp hc with rfl | hc
    · decide
    · rcases List.mem_cons.mp hc with rfl | hc
      · decide
      · rcases List.mem_cons.mp hc with rfl | hc
        · decide
        · rcases List.mem_append.mp hc with hc | hc
          · have := hostCharOk_toNat (hhok c hc)
            exact notWhitespace_of_toNat (by omega)
          · rcases hport with rfl | ⟨pv, _, rfl, _⟩
            · cases hc
            · rcases List.mem_cons.mp hc with rfl | hc'
              · decide
              · have := digit_toNat_facts (decStr_all_digit pv c hc')
                exact notWhitespace_of_toNat (by omega)
  apply trimCharList_eq_self
  · intro c hc
    cases sc with
    | nil => cases hsc
    | cons a as =>
      rw [List.cons_append, List.head?_cons] at hc
      injection hc with hc
      rw [← hc]
      simp only [schemeOk, Bool.and_eq_true] at hsc
      have := isSchemeStartChar_toNat hsc.1
      exact notWhitespace_of_toNat (by omega)
  · intro c hc
    rw [List.getLast?_append] at hc
    cases hB : (':' :: '/' :: '/' :: (hostname ++ portPart)).getLast? with
    | none =>
      rw [List.getLast?_eq_head?_reverse, List.head?_eq_none_iff,
        List.reverse_eq_nil_iff] at hB
      cases hB
    | some b =>
      rw [hB] at hc
      have : some b = some c := hc
      injection this with this
      rw [← this]
      exact hostWs b (getLast?_mem hB)

theorem normalizeServerUrl_idem (raw : String) :
    normalizeServerUrl (normalizeServerUrl raw) = normalizeServerUrl raw := by
  cases hp : parseURLChars (jsTrim raw).data with
  | none =>
    have h1 : normalizeServerUrl raw = jsTrim raw := by
      unfold normalizeServerUrl parseURL
      simp only []
      rw [hp]
    rw [h1]
    unfold normalizeServerUrl parseURL
    simp only []
    rw [jsTrim_idem, hp]
  | some ph =>
    obtain ⟨p, h⟩ := ph
    obtain ⟨sc, hp1, hsc, hlow, hinv⟩ := parseURLChars_sound hp
    have h1 : normalizeServerUrl raw = (⟨p⟩ : String) ++ "//" ++ (⟨h⟩ : String) := by
      unfold normalizeServerUrl parseURL
      simp only []
      rw [hp]
    have hodata : ((⟨p⟩ : String) ++ "//" ++ (⟨h⟩ : String)).data
        = sc ++ ':' :: '/' :: '/' :: h := by
      rw [strData_append, strData_append]
      rw [show ((⟨p⟩ : String)).data = p from rfl,
        show (("//" : String)).data = ['/', '/'] from rfl,
        show ((⟨h⟩ : String)).data = h from rfl, hp1]
      simp [List.append_assoc]
    have htrim : jsTrim ((⟨p⟩ : String) ++ "//" ++ (⟨h⟩ : String))
        = (⟨p⟩ : String) ++ "//" ++ (⟨h⟩ : String) := by
      apply strExt
      show trimCharList ((⟨p⟩ : String) ++ "//" ++ (⟨h⟩ : String)).data
        = ((⟨p⟩ : String) ++ "//" ++ (⟨h⟩ : String)).data
      rw [hodata]
      exact normalized_trim hsc hinv
    have hparse : parseURLChars (jsTrim ((⟨p⟩ : String) ++ "//" ++ (⟨h⟩ : String))).data
        = some (p, h) := by
      rw [htrim, hodata, parseURLChars_roundtrip hsc hlow hinv, ← hp1]
    rw [h1]
    unfold normalizeServerUrl parseURL
    simp only []
    rw [hparse]

/-- C10: `normalizeServerUrl` is idempotent on every string; when the
trimmed input parses as a URL the result is exactly the URL's protocol
followed by `//` and its host (path, query, fragment and credentials
removed); when it does not parse, the result is the trimmed input. -/
theorem normalizeServerUrl_spec :
    (∀ s : String, normalizeServerUrl (normalizeServerUrl s) = normalizeServerUrl s)
    ∧ (∀ (s p h : String), parseURL (jsTrim s) = some (p, h) →
        normalizeServerUrl s = p ++ "//" ++ h)
    ∧ (∀ s : String, parseURL (jsTrim s) = none → normalizeServerUrl s = jsTrim s) := by
  refine ⟨normalizeServerUrl_idem, ?_, ?_⟩
  · intro s p h hph
    unfold normalizeServerUrl
    simp only []
    rw [hph]
  · intro s hnone
    unfold normalizeServerUrl
    simp only []
    rw [hnone]

theorem normalizeServerUrl_spec_witness :
    normalizeServerUrl " http://User@GNS3.local:3080/web/ui " = "http://gns3.local:3080"
    ∧ normalizeServerUrl " 10.0.0.1:3080 " = "10.0.0.1:3080" := by
  constructor
  · have h := normalizeServerUrl_spec.2.1 " http://User@GNS3.local:3080/web/ui "
      "http:" "gns3.local:3080" (by decide)
    rw [h]
    decide
  · have h := normalizeServerUrl_spec.2.2 " 10.0.0.1:3080 " (by decide)
    rw [h]
    decide
